import Mathlib

/-!
Verification development for the Hjson value-to-text encoder (`src/ser.rs`).

Strings are modelled as lists of Unicode code points (`List Nat`); the byte
level (what Rust sees through `str::as_bytes`) is recovered with `utf8Encode`.
All output is modelled as lists of bytes (`List Nat`, each < 256).

Rust bitwise operations are translated to division / modulus arithmetic:
`x >> k` is `x / 2^k`, `x & (2^k - 1)` is `x % 2^k`, a `u8` shift `x << k`
is `x * 2^k % 256`, and `a | b` is `a + b` whenever the two mask shapes are
disjoint (which is noted at each use).
-/

namespace Hjson

/-- A Unicode scalar value: below the surrogate block or above it. -/
def scalarOk (c : Nat) : Bool :=
  decide (c < 0xD800 ∨ (0xE000 ≤ c ∧ c < 0x110000))

/-- Standard UTF-8 encoding of one code point, as Rust's `str` guarantees
for every `char` of a string slice.  Division/modulus form of the usual
bit packing. -/
def utf8Encode (c : Nat) : List Nat :=
  if c < 0x80 then [c]
  else if c < 0x800 then [0xC0 + c / 64, 0x80 + c % 64]
  else if c < 0x10000 then
    [0xE0 + c / 4096, 0x80 + c / 64 % 64, 0x80 + c % 64]
  else
    [0xF0 + c / 262144, 0x80 + c / 4096 % 64, 0x80 + c / 64 % 64, 0x80 + c % 64]

/-- The byte sequence of a string (Rust `str::as_bytes`). -/
def strBytes (s : List Nat) : List Nat :=
  s.flatMap utf8Encode

/-- The 256-entry `ESCAPE` lookup table of `ser.rs` (values are the
constants `BB TT NN FF RR QU BS U UU` from the source; `0` means
"no escape needed"). -/
def ESCAPE (b : Nat) : Nat :=
  if b = 8 then 98
  else if b = 9 then 116
  else if b = 10 then 110
  else if b = 12 then 102
  else if b = 13 then 114
  else if b ≤ 0x1F then 117
  else if b = 0x22 then 34
  else if b = 0x5C then 92
  else if 0x80 ≤ b ∧ b ≤ 0xFF then 1
  else 0

/-- The fixed set of "unsafe to emit literally" code-point ranges tested by
`Formatter::write_char_escape` (the `0x7f...0x9f | 0xad | ...` match arms). -/
def inEscapeRange (ch : Nat) : Bool :=
  decide ((0x7F ≤ ch ∧ ch ≤ 0x9F) ∨ ch = 0xAD ∨
    (0x600 ≤ ch ∧ ch ≤ 0x604) ∨ ch = 0x70F ∨
    ch = 0x17B4 ∨ ch = 0x17B5 ∨
    (0x200C ≤ ch ∧ ch ≤ 0x200F) ∨ (0x2028 ≤ ch ∧ ch ≤ 0x202F) ∨
    (0x2060 ≤ ch ∧ ch ≤ 0x206F) ∨ ch = 0xFEFF ∨
    (0xFFF0 ≤ ch ∧ ch ≤ 0xFFFF))

/-- `HEX_DIGITS` lookup: lower-case hex digit for a nibble. -/
def hexDigit (n : Nat) : Nat :=
  if n < 10 then 48 + n else 87 + n

/-- The six-byte `\uXXXX` escape built by `write_char_escape`
(`HEX_DIGITS[ch >> 12]`, `HEX_DIGITS[ch >> 8 & 0xF]`, ...). -/
def u16Escape (ch : Nat) : List Nat :=
  [92, 117, hexDigit (ch / 4096), hexDigit (ch / 256 % 16),
   hexDigit (ch / 16 % 16), hexDigit (ch % 16)]

/-- The guarded four-byte arm of `write_char_escape` (`bytes[0] >> 3 ==
0b11110` plus three continuation checks): the `\u{XXXXXX}` extended
escape with the source's six digit extractions (`u8` shifts wrap modulo
256; `x & 0x0C` is `x % 16 / 4 * 4`; each `|` joins disjoint masks, so it
is `+`), or a one-byte passthrough when the guard fails. -/
def wceUU4 (b0 b1 b2 b3 : Nat) : List Nat × Nat :=
  if b0 / 8 = 30 ∧ b1 / 64 = 2 ∧ b2 / 64 = 2 ∧ b3 / 64 = 2 then
    ([92, 117, 123,
      hexDigit (b0 / 4 % 2),
      hexDigit (b0 * 4 % 256 % 16 / 4 * 4 + b1 / 16 % 4),
      hexDigit (b1 % 16),
      hexDigit (b2 / 4 % 16),
      hexDigit (b2 * 4 % 256 % 16 / 4 * 4 + b3 / 16 % 4),
      hexDigit (b3 % 16),
      125], 4)
  else ([b0], 1)

/-- The guarded three-byte arm, falling through to the four-byte arm.
The reconstruction reproduces
`((((bytes[0] << 4) | (bytes[1] >> 2 & 0x0F)) as u16) << 8) |
 (((bytes[1] << 6 & 0xC0) | (bytes[2] & 0x3F)) as u16)`:
`u8` shifts wrap modulo 256; `x & 0xC0` on `x < 256` is `x / 64 * 64`;
each `|` joins disjoint masks, so it is `+`. -/
def wceUU3 (b0 b1 : Nat) (rest2 : List Nat) : List Nat × Nat :=
  match rest2 with
  | [] => ([b0], 1)
  | b2 :: rest3 =>
    if b0 / 16 = 14 ∧ b1 / 64 = 2 ∧ b2 / 64 = 2 then
      (if inEscapeRange ((b0 * 16 % 256 + b1 / 4 % 16) * 256 +
          (b1 * 64 % 256 / 64 * 64 + b2 % 64)) then
        (u16Escape ((b0 * 16 % 256 + b1 / 4 % 16) * 256 +
          (b1 * 64 % 256 / 64 * 64 + b2 % 64)), 3)
      else ([b0, b1, b2], 3))
    else
      match rest3 with
      | [] => ([b0], 1)
      | b3 :: _ => wceUU4 b0 b1 b2 b3

/-- The guarded two-byte arm, falling through to the three-byte arm.
The reconstruction reproduces the source expression
`((bytes[0] as u16) & 0b00011111 << 6) | ((bytes[1] as u16) & 0b00111111)`:
by Rust precedence the mask is `bytes[0] & 0x7C0`, i.e. `b0 / 64 % 32 * 64`
(bits 6..10 of `b0`), or-ed (disjointly) with `b1 % 64`. -/
def wceUU (b0 : Nat) (rest : List Nat) : List Nat × Nat :=
  match rest with
  | [] => ([b0], 1)
  | b1 :: rest2 =>
    if b0 / 32 = 6 ∧ b1 / 64 = 2 then
      (if inEscapeRange (b0 / 64 % 32 * 64 + b1 % 64) then
        (u16Escape (b0 / 64 % 32 * 64 + b1 % 64), 2)
      else ([b0, b1], 2))
    else wceUU3 b0 b1 rest2

/-- The inner `match ESCAPE[bytes[0]]` of `write_char_escape`: mnemonic
escapes, `\u00XX` control escapes, and the guarded multi-byte arms.
Returns the emitted bytes and `bytes_read`. -/
def wceInner (b0 : Nat) (rest : List Nat) : List Nat × Nat :=
  let e := ESCAPE b0
  if e = 98 then ([92, 98], 1)
  else if e = 116 then ([92, 116], 1)
  else if e = 110 then ([92, 110], 1)
  else if e = 102 then ([92, 102], 1)
  else if e = 114 then ([92, 114], 1)
  else if e = 34 then ([92, 34], 1)
  else if e = 92 then ([92, 92], 1)
  else if e = 117 then ([92, 117, 48, 48, hexDigit (b0 / 16), hexDigit (b0 % 16)], 1)
  else wceUU b0 rest

/-- `Formatter::write_char_escape`.  The function first forms a 16-bit value
from the first two raw bytes (`ch = bytes[0]; ch <<= 8; ch |= bytes[1]`,
i.e. `b0 * 256 + b1`) and tests it against the unsafe ranges with
`bytes_read = 2`; only if that fails does it fall back to the
`ESCAPE`-table dispatch of `wceInner`.  Returns the emitted bytes and
`bytes_read`. -/
def writeCharEscape : List Nat → List Nat × Nat
  | [] => ([], 0)
  | [b0] => if inEscapeRange b0 then (u16Escape b0, 1) else wceInner b0 []
  | b0 :: b1 :: rest =>
    if inEscapeRange (b0 * 256 + b1) then (u16Escape (b0 * 256 + b1), 2)
    else wceInner b0 (b1 :: rest)

/-- The copy loop of `Formatter::write_string` (shared verbatim by the
pretty double-quoted branch and `write_member_string`): bytes whose
`ESCAPE` entry is `0` are copied through; otherwise `write_char_escape`
runs on the remaining suffix and the loop skips the `bytes_read` bytes it
consumed.  The `fuel` argument makes the recursion structural; each step
consumes at least one byte, so `fuel = length` suffices. -/
def escapeLoopF : Nat → List Nat → List Nat
  | 0, _ => []
  | _, [] => []
  | fuel + 1, b :: rest =>
    if ESCAPE b = 0 then b :: escapeLoopF fuel rest
    else
      let e := writeCharEscape (b :: rest)
      e.1 ++ escapeLoopF fuel (rest.drop (e.2 - 1))

/-- The escaped body of a double-quoted string. -/
def escapeBody (bytes : List Nat) : List Nat :=
  escapeLoopF bytes.length bytes

/-- `Formatter::write_string` for the compact formatter: always
double-quoted, body run through the escape loop. -/
def compactWriteString (s : List Nat) : List Nat :=
  34 :: escapeBody (strBytes s) ++ [34]

/-! ### The classifier regexes

The five `lazy_static` regexes of `ser.rs` are realised as decidable
predicates over the code-point list, following the `regex` crate's
semantics (Unicode classes, leftmost-match search for the unanchored
parts). -/

/-- The `regex` crate's `\s` class: Unicode white space. -/
def isRegexSpace (c : Nat) : Bool :=
  decide (c = 9 ∨ c = 10 ∨ c = 11 ∨ c = 12 ∨ c = 13 ∨ c = 32 ∨
    c = 0x85 ∨ c = 0xA0 ∨ c = 0x1680 ∨ (0x2000 ≤ c ∧ c ≤ 0x200A) ∨
    c = 0x2028 ∨ c = 0x2029 ∨ c = 0x202F ∨ c = 0x205F ∨ c = 0x3000)

/-- Decimal digit `\d` (ASCII, as used inside the number pattern). -/
def isDig (c : Nat) : Bool := decide (48 ≤ c ∧ c ≤ 57)

/-- Full match of the number alternative of `RE_VALUE`:
`-?(?:0|[1-9]\d*)(?:\.\d+)?(?:[eE][+-]?\d+)?`.  The remainder after the
optional exponent marker must be one or more digits reaching the end. -/
def numExp : List Nat → Bool
  | [] => true
  | c :: rest =>
    if c = 101 ∨ c = 69 then
      match rest with
      | 43 :: r => !r.isEmpty && r.all isDig
      | 45 :: r => !r.isEmpty && r.all isDig
      | r => !r.isEmpty && r.all isDig
    else false

/-- Optional fraction `(?:\.\d+)?` then the optional exponent. -/
def numFrac : List Nat → Bool
  | 46 :: c :: rest => isDig c && numExp (rest.dropWhile isDig)
  | t => numExp t

/-- Integer part `(?:0|[1-9]\d*)` then fraction and exponent. -/
def numAfterSign : List Nat → Bool
  | [] => false
  | 48 :: rest => numFrac rest
  | c :: rest => decide (49 ≤ c ∧ c ≤ 57) && numFrac (rest.dropWhile isDig)

/-- Full match of the literal alternation heading `RE_VALUE`:
a JSON number or `true` / `false` / `null`. -/
def isLit (s : List Nat) : Bool :=
  s == [116, 114, 117, 101] || s == [102, 97, 108, 115, 101] ||
    s == [110, 117, 108, 108] ||
    (match s with
     | 45 :: rest => numAfterSign rest
     | t => numAfterSign t)

/-- The delimiter class `[,}\]#/]` following a literal in `RE_VALUE`
(the second alternative `/[^/*]` is subsumed by the bare `/`). -/
def valueDelim (c : Nat) : Bool :=
  decide (c = 44 ∨ c = 125 ∨ c = 93 ∨ c = 35 ∨ c = 47)

/-- The trailing context `(?:\s*$|\s*(?:[,}\]#/]|/[^/*]))` of `RE_VALUE`:
after skipping white space, either the string ends or a delimiter starts. -/
def valueTailOk (t : List Nat) : Bool :=
  match t.dropWhile isRegexSpace with
  | [] => true
  | c :: _ => valueDelim c

/-- `RE_VALUE.is_match`: some prefix of the string is a bare JSON literal
whose trailing context is empty-or-delimiter (the regex is anchored only
at the start, so all prefix lengths are tried). -/
def reValue (s : List Nat) : Bool :=
  (List.range (s.length + 1)).any fun i => isLit (s.take i) && valueTailOk (s.drop i)

/-- First character class of `RE_STR_NONE`: `[^\x00-\x1f\s"'{}\[\],:/#]`. -/
def noneFirstOk (c : Nat) : Bool :=
  !decide (c ≤ 0x1F) && !isRegexSpace c &&
    !decide (c = 34 ∨ c = 39 ∨ c = 123 ∨ c = 125 ∨ c = 91 ∨ c = 93 ∨
      c = 44 ∨ c = 58 ∨ c = 47 ∨ c = 35)

/-- Character after a leading slash in `RE_STR_NONE`: `[^\x00-\x1f\t\n/*]`. -/
def noneSlashOk (c : Nat) : Bool :=
  !decide (c ≤ 0x1F) && !decide (c = 47 ∨ c = 42)

/-- Middle class of `RE_STR_NONE`: `[^\x00-\x1f\t\n]`. -/
def noneMidOk (c : Nat) : Bool := !decide (c ≤ 0x1F)

/-- Final class of `RE_STR_NONE`: `[^\x00-\x1f\s"]`. -/
def noneLastOk (c : Nat) : Bool :=
  !decide (c ≤ 0x1F) && !isRegexSpace c && !decide (c = 34)

/-- Tail group of `RE_STR_NONE`: `(?:[^\x00-\x1f\t\n]*[^\x00-\x1f\s"])?` —
either empty, or every character but the last is mid-class and the last is
final-class. -/
def noneTail (r : List Nat) : Bool :=
  r.isEmpty || (r.dropLast.all noneMidOk && noneLastOk (r.getLastD 0))

/-- `RE_STR_NONE.is_match` (fully anchored): strings safe to emit bare.
A leading `/` must use the two-character `/[^\x00-\x1f\t\n/*]` unit (it is
excluded from the one-character first class). -/
def reStrNone : List Nat → Bool
  | [] => false
  | [47] => false
  | 47 :: c :: rest => noneSlashOk c && noneTail rest
  | c :: rest => noneFirstOk c && noneTail rest

/-- `RE_STR_DOUBLE.is_match` (fully anchored):
`^([^\t\n"](?:[^\t\n"]*[^\t\n"])?|[\s\x08]+)$` — a nonempty string either
free of tab/newline/quote or consisting only of white space and `\x08`. -/
def reStrDouble (s : List Nat) : Bool :=
  !s.isEmpty &&
    (s.all (fun c => !decide (c = 9 ∨ c = 10 ∨ c = 34)) ||
     s.all (fun c => isRegexSpace c || c = 8))

/-- `RE_HAS_NEWLINE.is_match`: the string contains a newline. -/
def reHasNewline (s : List Nat) : Bool := s.contains 10

/-- Chunk parser for `RE_STR_MULTILINE`'s body `([^']|'[^']|''[^'])+`:
each chunk is at most two apostrophes followed by one non-apostrophe.
The choice is deterministic in the first two characters. -/
def mlChunks : List Nat → Bool
  | [] => true
  | 39 :: 39 :: c :: rest => !decide (c = 39) && mlChunks rest
  | 39 :: c :: rest => !decide (c = 39) && mlChunks rest
  | 39 :: [] => false
  | c :: rest => !decide (c = 39) && mlChunks rest

/-- `RE_STR_MULTILINE.is_match` (fully anchored): at least one chunk. -/
def reStrMultiline (s : List Nat) : Bool :=
  !s.isEmpty && mlChunks s

/-- Single-character unit class of `RE_MEMBER_NONE`:
`[^\x00-\x1f\s"'{}\[\],:/#]`. -/
def memberAOk (c : Nat) : Bool := noneFirstOk c

/-- After-slash class of `RE_MEMBER_NONE`: `[^\x00-\x1f\s"'{}\[\],:/*]`
(note `#` is allowed here but `*` is not). -/
def memberBOk (c : Nat) : Bool :=
  !decide (c ≤ 0x1F) && !isRegexSpace c &&
    !decide (c = 34 ∨ c = 39 ∨ c = 123 ∨ c = 125 ∨ c = 91 ∨ c = 93 ∨
      c = 44 ∨ c = 58 ∨ c = 47 ∨ c = 42)

/-- Tail of `RE_MEMBER_NONE`: a sequence of units ending in a
single-character unit (the regex's `(?:unit* lastchar)`). -/
def memberTail : List Nat → Bool
  | [] => false
  | [c] => memberAOk c
  | 47 :: c :: rest => memberBOk c && memberTail rest
  | c :: rest => memberAOk c && memberTail rest

/-- `RE_MEMBER_NONE.is_match` (fully anchored): bare-eligible member keys —
one unit, optionally followed by units ending in a single character. -/
def reMemberNone : List Nat → Bool
  | [] => false
  | 47 :: c :: rest => memberBOk c && (rest.isEmpty || memberTail rest)
  | c :: rest => memberAOk c && (rest.isEmpty || memberTail rest)

/-- The four quoting styles of `PrettyFormatter::write_string`. -/
inductive StringKind where
  | unquoted
  | doubleQuoted
  | tripleQuoted
  | multilineTripleQuoted
deriving DecidableEq, Repr

/-- The regex cascade selecting the quoting style
(`PrettyFormatter::write_string`, `let kind = ...`). -/
def classifyString (s : List Nat) : StringKind :=
  if reValue s || !reStrNone s then
    if !reStrDouble s then
      if reHasNewline s then
        if !reStrMultiline s then .doubleQuoted else .multilineTripleQuoted
      else .tripleQuoted
    else .doubleQuoted
  else .unquoted

/-! ### The pretty formatter

`PrettyFormatter` state and its `Formatter` methods.  The `indent` unit is
the default two spaces used by `Serializer::pretty` (and hence by
`to_vec_pretty` / `to_string_pretty`).  `current_indent` is a Rust `usize`;
a decrement of `0` panics (in a debug build), which the model surfaces as
the `arithUnderflow` error. -/

/-- Errors an encode can surface: the `KeyMustBeAString` error code, or a
`usize` subtraction overflow panic. -/
inductive SerErr where
  | keyMustBeAString
  | arithUnderflow
deriving DecidableEq, Repr

/-- `PrettyFormatter`'s mutable fields. -/
structure PState where
  currentIndent : Nat
  hasValue : Bool
  inObject : Bool
  nextBracket : Option Nat
deriving DecidableEq, Repr

/-- The initial formatter state (`PrettyFormatter::new`). -/
def pInit : PState := ⟨0, false, false, none⟩

/-- `indent(writer, n, s)` with the default two-space unit. -/
def indentBytes (n : Nat) : List Nat :=
  (List.replicate n [32, 32]).flatten

/-- `current_indent -= 1` on a `usize`: panics when already zero. -/
def usizeDec (n : Nat) : Except SerErr Nat :=
  if n = 0 then .error .arithUnderflow else .ok (n - 1)

/-- The `if self.in_object` preamble shared by every scalar writer:
a single space, and the flag is cleared. -/
def pSpace (st : PState) : PState × List Nat :=
  if st.inObject then ({ st with inObject := false }, [32]) else (st, [])

/-- A pretty scalar writer (`write_bool`, the integer and float writers):
optional space then the textified bytes. -/
def pWriteScalar (st : PState) (bytes : List Nat) : PState × List Nat :=
  let p := pSpace st
  (p.1, p.2 ++ bytes)

/-- `PrettyFormatter::write_null`. -/
def pWriteNull (st : PState) : PState × List Nat :=
  pWriteScalar st [110, 117, 108, 108]

/-- `PrettyFormatter::write_bool`. -/
def pWriteBool (st : PState) (b : Bool) : PState × List Nat :=
  pWriteScalar st (if b then [116, 114, 117, 101] else [102, 97, 108, 115, 101])

/-- `PrettyFormatter::begin_string`: optional space then `"`. -/
def pBeginString (st : PState) : PState × List Nat :=
  let p := pSpace st
  (p.1, p.2 ++ [34])

/-- `PrettyFormatter::try_write_bracket`: flush a pending bracket, first
emitting the newline-and-indent owed when the container is an object
value; the indent level rises by one. -/
def tryWriteBracket (st : PState) : PState × List Nat :=
  match st.nextBracket with
  | none => (st, [])
  | some br =>
    let p :=
      if st.inObject then
        (({ st with inObject := false } : PState), [10] ++ indentBytes st.currentIndent)
      else (st, ([] : List Nat))
    ({ p.1 with currentIndent := p.1.currentIndent + 1,
                hasValue := false, nextBracket := none },
     p.2 ++ [br])

/-- `PrettyFormatter::begin_array`: only records the pending bracket. -/
def pBeginArray (st : PState) : PState :=
  { st with nextBracket := some 91 }

/-- `PrettyFormatter::begin_object`. -/
def pBeginObject (st : PState) : PState :=
  { st with nextBracket := some 123 }

/-- `PrettyFormatter::end_array`: a still-pending bracket collapses to
`[]` (with a leading space when the array is an object value); otherwise
the indent is decremented and, if a child was written, a newline and
indent precede the `]`. -/
def pEndArray (st : PState) : Except SerErr (PState × List Nat) :=
  match st.nextBracket with
  | some _ =>
    .ok ({ st with nextBracket := none },
      (if st.inObject then [32] else []) ++ [91, 93])
  | none => do
    let n ← usizeDec st.currentIndent
    .ok ({ st with currentIndent := n },
      (if st.hasValue then [10] ++ indentBytes n else []) ++ [93])

/-- `PrettyFormatter::end_object` (mirror of `pEndArray`). -/
def pEndObject (st : PState) : Except SerErr (PState × List Nat) :=
  match st.nextBracket with
  | some _ =>
    .ok ({ st with nextBracket := none },
      (if st.inObject then [32] else []) ++ [123, 125])
  | none => do
    let n ← usizeDec st.currentIndent
    .ok ({ st with currentIndent := n },
      (if st.hasValue then [10] ++ indentBytes n else []) ++ [125])

/-- `PrettyFormatter::begin_array_value`: flush any pending bracket, clear
`in_object`, then newline and indent at the current level. -/
def pBeginArrayValue (st : PState) : PState × List Nat :=
  let p := tryWriteBracket st
  ({ p.1 with inObject := false }, p.2 ++ [10] ++ indentBytes p.1.currentIndent)

/-- `PrettyFormatter::end_array_value`: records that a child was written. -/
def pEndArrayValue (st : PState) : PState :=
  { st with hasValue := true }

/-- `PrettyFormatter::begin_object_key`: flush any pending bracket, then
newline and indent. -/
def pBeginObjectKey (st : PState) : PState × List Nat :=
  let p := tryWriteBracket st
  (p.1, p.2 ++ [10] ++ indentBytes p.1.currentIndent)

/-- `PrettyFormatter::begin_object_value`: the colon, and `in_object` is
set so the value's writer knows it sits inline after a key. -/
def pBeginObjectValue (st : PState) : PState × List Nat :=
  ({ st with inObject := true }, [58])

/-- `PrettyFormatter::end_object_value`. -/
def pEndObjectValue (st : PState) : PState :=
  { st with hasValue := true }

/-- The content loop of the `MultilineTripleQuoted` branch.  `cur` is the
span `bytes[start..i]`; `has_content` is set by tab, space or carriage
return; a `\n` flushes the span with indentation only when `has_content`
is set (otherwise only the newline is written — dropping the span), and
the trailing span is always written indented.  A final newline is added
when any `\n` was seen. -/
def mlLoop (ind : List Nat) : List Nat → List Nat → Bool → Bool → List Nat
  | [], cur, _, hasNl =>
    (if cur.isEmpty then [] else ind ++ cur) ++ (if hasNl then [10] else [])
  | b :: rest, cur, hasContent, hasNl =>
    if b = 10 then
      (if hasContent then ind ++ cur ++ [10] else [10]) ++ mlLoop ind rest [] false true
    else
      mlLoop ind rest (cur ++ [b])
        (hasContent || decide (b = 9 ∨ b = 32 ∨ b = 13)) hasNl

/-- `PrettyFormatter::write_string`: classify, then emit.  The multiline
branch raises the indent one level only when the string is an object's
value, writes the `'''` block, and decrements `current_indent`
unconditionally at the end (the `usize` decrement that can panic). -/
def prettyWriteString (st : PState) (s : List Nat) :
    Except SerErr (PState × List Nat) :=
  match classifyString s with
  | .unquoted =>
    let p := pSpace st
    .ok (p.1, p.2 ++ strBytes s)
  | .doubleQuoted =>
    let p := pSpace st
    .ok (p.1, p.2 ++ 34 :: escapeBody (strBytes s) ++ [34])
  | .tripleQuoted =>
    let p := pSpace st
    .ok (p.1, p.2 ++ [39, 39, 39] ++ strBytes s ++ [39, 39, 39])
  | .multilineTripleQuoted =>
    let lvl := if st.inObject then st.currentIndent + 1 else st.currentIndent
    let pre := if st.inObject then [10] ++ indentBytes lvl else []
    let body := mlLoop (indentBytes lvl) (strBytes s) [] false false
    do
      let n ← usizeDec lvl
      .ok ({ st with currentIndent := n },
        pre ++ [39, 39, 39, 10] ++ body ++ indentBytes lvl ++ [39, 39, 39])

/-- `PrettyFormatter::write_member_string`: bare when `RE_MEMBER_NONE`
matches, otherwise double-quoted with the escape loop.  No `in_object`
handling. -/
def prettyWriteMemberString (st : PState) (s : List Nat) : PState × List Nat :=
  if reMemberNone s then (st, strBytes s)
  else (st, 34 :: escapeBody (strBytes s) ++ [34])

/-! ### The value tree and the serializer

One constructor per serde entry point of `impl Serializer` (the widths of
the integer and float entry points only tag the call; every width funnels
into the same formatter shape). -/

/-- Integer widths `i8..i64`, `u8..u64`. -/
inductive IntWidth where
  | i8 | i16 | i32 | i64 | u8 | u16 | u32 | u64
deriving DecidableEq, Repr

/-- Float widths. -/
inductive FWidth where
  | f32 | f64
deriving DecidableEq, Repr

/-- `std::num::FpCategory`. -/
inductive FpCat where
  | nan | infinite | zero | subnormal | normal
deriving DecidableEq, Repr

mutual
/-- One input value shape per `ser::Serializer` method.  Strings are
code-point lists; a float carries its category and the (external,
assumed-correct) `dtoa` rendering of its value. -/
inductive HValue where
  | unit : HValue
  | unitStruct : List Nat → HValue
  | noneV : HValue
  | someV : HValue → HValue
  | vbool : Bool → HValue
  | vint : IntWidth → Int → HValue
  | vfloat : FWidth → FpCat → List Nat → HValue
  | vchar : Nat → HValue
  | vstr : List Nat → HValue
  | vbytes : List Nat → HValue
  | arr : HList → HValue
  | obj : HEntries → HValue
  | unitVariant : List Nat → HValue
  | newtypeStruct : List Nat → HValue → HValue
  | newtypeVariant : List Nat → List Nat → HValue → HValue
  | tupleVariant : List Nat → HList → HValue
  | structVariant : List Nat → HEntries → HValue
/-- Sequence elements. -/
inductive HList where
  | nil : HList
  | cons : HValue → HList → HList
/-- Map entries (key, value). -/
inductive HEntries where
  | nil : HEntries
  | cons : HValue → HValue → HEntries → HEntries
end

/-- Number of elements (the `Some(len)` hint serde passes for a sequence). -/
def HList.length : HList → Nat
  | .nil => 0
  | .cons _ tl => 1 + tl.length

/-- Number of entries. -/
def HEntries.length : HEntries → Nat
  | .nil => 0
  | .cons _ _ tl => 1 + tl.length

mutual
/-- Well-formed input: every code point of a string, char or variant name
is a Unicode scalar, and float renderings are ASCII. -/
def wfV : HValue → Bool
  | .unit => true
  | .unitStruct _ => true
  | .noneV => true
  | .someV v => wfV v
  | .vbool _ => true
  | .vint _ _ => true
  | .vfloat _ _ txt => txt.all (fun b => decide (b < 128))
  | .vchar c => scalarOk c
  | .vstr s => s.all scalarOk
  | .vbytes _ => true
  | .arr l => wfL l
  | .obj e => wfE e
  | .unitVariant n => n.all scalarOk
  | .newtypeStruct _ v => wfV v
  | .newtypeVariant _ var v => var.all scalarOk && wfV v
  | .tupleVariant var l => var.all scalarOk && wfL l
  | .structVariant var e => var.all scalarOk && wfE e
/-- Well-formed element list. -/
def wfL : HList → Bool
  | .nil => true
  | .cons v tl => wfV v && wfL tl
/-- Well-formed entry list. -/
def wfE : HEntries → Bool
  | .nil => true
  | .cons k v tl => wfV k && wfV v && wfE tl
end

/-- Decimal digits of `n` (most significant first), as ASCII bytes; the
fuel argument makes the recursion structural. -/
def natDigitsF : Nat → Nat → List Nat
  | 0, _ => []
  | fuel + 1, n => if n = 0 then [] else natDigitsF fuel (n / 10) ++ [48 + n % 10]

/-- Model of the external `itoa` textifier for an unsigned value. -/
def natToBytes (n : Nat) : List Nat :=
  if n = 0 then [48] else natDigitsF n n

/-- Model of the external `itoa` textifier for a signed value. -/
def intToBytes (i : Int) : List Nat :=
  if i < 0 then 45 :: natToBytes (-i).toNat else natToBytes i.toNat

/-- `null` as bytes. -/
def nullB : List Nat := [110, 117, 108, 108]

/-- `true` / `false` as bytes. -/
def boolB (b : Bool) : List Nat :=
  if b then [116, 114, 117, 101] else [102, 97, 108, 115, 101]

/-! #### Compact serializer -/

/-- `serialize_bytes`, compact: each byte through the `u8` writer with the
sequence comma protocol. -/
def encCBytes : List Nat → Bool → List Nat
  | [], _ => []
  | b :: tl, first => (if first then [] else [44]) ++ natToBytes b ++ encCBytes tl false

mutual
/-- The compact-mode encode of one value — `value.serialize(&mut ser)` with
`CompactFormatter`, returning the emitted bytes.  Containers follow the
`Compound` protocol: a `Some(0)` length hint writes the collapsed empty
form at once; otherwise the open bracket, comma-separated children, and
the close bracket. -/
def encC : HValue → Except SerErr (List Nat)
  | .unit => .ok nullB
  | .unitStruct _ => .ok nullB
  | .noneV => .ok nullB
  | .someV v => encC v
  | .vbool b => .ok (boolB b)
  | .vint _ n => .ok (intToBytes n)
  | .vfloat _ cat txt =>
    match cat with
    | .nan => .ok nullB
    | .infinite => .ok nullB
    | _ => .ok txt
  | .vchar c => .ok (compactWriteString [c])
  | .vstr s => .ok (compactWriteString s)
  | .vbytes bs =>
    match bs with
    | [] => .ok [91, 93]
    | _ => .ok (91 :: encCBytes bs true ++ [93])
  | .arr l =>
    match l with
    | .nil => .ok [91, 93]
    | _ => do
      let body ← encCList l true
      .ok (91 :: body ++ [93])
  | .obj e =>
    match e with
    | .nil => .ok [123, 125]
    | _ => do
      let body ← encCEntries e true
      .ok (123 :: body ++ [125])
  | .unitVariant name => .ok (compactWriteString name)
  | .newtypeStruct _ v => encC v
  | .newtypeVariant _ var v => do
    let inner ← encC v
    .ok (123 :: compactWriteString var ++ 58 :: inner ++ [125])
  | .tupleVariant var l => do
    let seqPart ←
      match l with
      | .nil => pure [91, 93]
      | _ => do
        let body ← encCList l true
        pure (91 :: body ++ [93])
    .ok (123 :: compactWriteString var ++ 58 :: seqPart ++ [125])
  | .structVariant var e => do
    let mapPart ←
      match e with
      | .nil => pure [123, 125]
      | _ => do
        let body ← encCEntries e true
        pure (123 :: body ++ [125])
    .ok (123 :: compactWriteString var ++ 58 :: mapPart ++ [125])
/-- Sequence elements, compact: `begin_array_value(first)` is a comma
unless first. -/
def encCList : HList → Bool → Except SerErr (List Nat)
  | .nil, _ => .ok []
  | .cons v tl, first => do
    let x ← encC v
    let r ← encCList tl false
    .ok ((if first then [] else [44]) ++ x ++ r)
/-- Map entries, compact: comma unless first, key through the key
serializer, colon, value. -/
def encCEntries : HEntries → Bool → Except SerErr (List Nat)
  | .nil, _ => .ok []
  | .cons k v tl, first => do
    let kb ← keySerC k
    let vb ← encC v
    let r ← encCEntries tl false
    .ok ((if first then [] else [44]) ++ kb ++ 58 :: vb ++ r)
/-- `MapKeySerializer` with the compact formatter: strings through
`write_member_string` (which for the default formatter is
`write_string`), unit variant names through `serialize_str`, newtype
structs recurse, integers as `begin_string` + `itoa` + `end_string`;
everything else is the `KeyMustBeAString` error. -/
def keySerC : HValue → Except SerErr (List Nat)
  | .vstr s => .ok (compactWriteString s)
  | .unitVariant name => .ok (compactWriteString name)
  | .newtypeStruct _ v => keySerC v
  | .vint _ n => .ok (34 :: intToBytes n ++ [34])
  | _ => .error .keyMustBeAString
end

/-! #### Pretty serializer -/

/-- `Serializer::serialize_seq` with the pretty formatter: a `Some(0)`
hint writes `begin_array` then `end_array` at once (collapsed empty form)
and the `Compound` starts `Empty` (the returned flag); otherwise only the
pending bracket is recorded and the `Compound` starts `First`. -/
def serializeSeqP (st : PState) (hint : Option Nat) :
    Except SerErr (PState × List Nat × Bool) :=
  if hint = some 0 then do
    let r ← pEndArray (pBeginArray st)
    .ok (r.1, r.2, true)
  else .ok (pBeginArray st, [], false)

/-- `Serializer::serialize_map` with the pretty formatter. -/
def serializeMapP (st : PState) (hint : Option Nat) :
    Except SerErr (PState × List Nat × Bool) :=
  if hint = some 0 then do
    let r ← pEndObject (pBeginObject st)
    .ok (r.1, r.2, true)
  else .ok (pBeginObject st, [], false)

/-- `SerializeSeq::end`: nothing when the `Compound` state is `Empty`,
otherwise `end_array`. -/
def pSeqClose (st : PState) (wasEmpty : Bool) : Except SerErr (PState × List Nat) :=
  if wasEmpty then .ok (st, []) else pEndArray st

/-- `SerializeMap::end`. -/
def pMapClose (st : PState) (wasEmpty : Bool) : Except SerErr (PState × List Nat) :=
  if wasEmpty then .ok (st, []) else pEndObject st

/-- `serialize_bytes`, pretty: each byte through the `u8` writer inside
the sequence element protocol. -/
def pBytesElems (st : PState) : List Nat → PState × List Nat
  | [] => (st, [])
  | b :: tl =>
    let p1 := pBeginArrayValue st
    let p2 := pWriteScalar p1.1 (natToBytes b)
    let st3 := pEndArrayValue p2.1
    let p4 := pBytesElems st3 tl
    (p4.1, p1.2 ++ p2.2 ++ p4.2)

mutual
/-- Pretty-mode encode of one value — `value.serialize(&mut ser)` with
`PrettyFormatter::new()`.  Returns the final formatter state and the
emitted bytes, or the error that aborted the encode. -/
def encP (st : PState) : HValue → Except SerErr (PState × List Nat)
  | .unit => .ok (pWriteNull st)
  | .unitStruct _ => .ok (pWriteNull st)
  | .noneV => .ok (pWriteNull st)
  | .someV v => encP st v
  | .vbool b => .ok (pWriteBool st b)
  | .vint _ n => .ok (pWriteScalar st (intToBytes n))
  | .vfloat _ cat txt =>
    match cat with
    | .nan => .ok (pWriteNull st)
    | .infinite => .ok (pWriteNull st)
    | _ => .ok (pWriteScalar st txt)
  | .vchar c => prettyWriteString st [c]
  | .vstr s => prettyWriteString st s
  | .vbytes bs => do
    let o ← serializeSeqP st (some bs.length)
    let p := pBytesElems o.1 bs
    let c ← pSeqClose p.1 o.2.2
    .ok (c.1, o.2.1 ++ p.2 ++ c.2)
  | .arr l => do
    let o ← serializeSeqP st (some l.length)
    let p ← encPList o.1 l
    let c ← pSeqClose p.1 o.2.2
    .ok (c.1, o.2.1 ++ p.2 ++ c.2)
  | .obj e => do
    let o ← serializeMapP st (some e.length)
    let p ← encPEntries o.1 e
    let c ← pMapClose p.1 o.2.2
    .ok (c.1, o.2.1 ++ p.2 ++ c.2)
  | .unitVariant name => prettyWriteString st name
  | .newtypeStruct _ v => encP st v
  | .newtypeVariant _ var v => do
    let st1 := pBeginObject st
    let k := pBeginObjectKey st1
    let s ← prettyWriteString k.1 var
    let b := pBeginObjectValue s.1
    let i ← encP b.1 v
    let st6 := pEndObjectValue i.1
    let e ← pEndObject st6
    .ok (e.1, k.2 ++ s.2 ++ b.2 ++ i.2 ++ e.2)
  | .tupleVariant var l => do
    let st1 := pBeginObject st
    let k := pBeginObjectKey st1
    let s ← prettyWriteString k.1 var
    let b := pBeginObjectValue s.1
    let o ← serializeSeqP b.1 (some l.length)
    let p ← encPList o.1 l
    let c ← pSeqClose p.1 o.2.2
    let st8 := pEndObjectValue c.1
    let e ← pEndObject st8
    .ok (e.1, k.2 ++ s.2 ++ b.2 ++ o.2.1 ++ p.2 ++ c.2 ++ e.2)
  | .structVariant var fs => do
    let st1 := pBeginObject st
    let k := pBeginObjectKey st1
    let s ← prettyWriteString k.1 var
    let b := pBeginObjectValue s.1
    let o ← serializeMapP b.1 (some fs.length)
    let p ← encPEntries o.1 fs
    let c ← pMapClose p.1 o.2.2
    let st8 := pEndObjectValue c.1
    let e ← pEndObject st8
    .ok (e.1, k.2 ++ s.2 ++ b.2 ++ o.2.1 ++ p.2 ++ c.2 ++ e.2)
/-- Sequence elements, pretty: `begin_array_value`, the element,
`end_array_value`, for each element in order. -/
def encPList (st : PState) : HList → Except SerErr (PState × List Nat)
  | .nil => .ok (st, [])
  | .cons v tl => do
    let p1 := pBeginArrayValue st
    let p2 ← encP p1.1 v
    let st3 := pEndArrayValue p2.1
    let p4 ← encPList st3 tl
    .ok (p4.1, p1.2 ++ p2.2 ++ p4.2)
/-- Map entries, pretty: `begin_object_key`, the key through
`MapKeySerializer`, `end_object_key` (a no-op), `begin_object_value`, the
value, `end_object_value`. -/
def encPEntries (st : PState) : HEntries → Except SerErr (PState × List Nat)
  | .nil => .ok (st, [])
  | .cons k v tl => do
    let p1 := pBeginObjectKey st
    let p2 ← keySerP p1.1 k
    let p3 := pBeginObjectValue p2.1
    let p4 ← encP p3.1 v
    let st5 := pEndObjectValue p4.1
    let p6 ← encPEntries st5 tl
    .ok (p6.1, p1.2 ++ p2.2 ++ p3.2 ++ p4.2 ++ p6.2)
/-- `MapKeySerializer` with the pretty formatter: strings through
`write_member_string`, unit variant names through the full
`serialize_str` (the value-string classifier), newtype structs recurse,
integers as `begin_string` + integer writer + `end_string`; everything
else errors with `KeyMustBeAString`. -/
def keySerP (st : PState) : HValue → Except SerErr (PState × List Nat)
  | .vstr s => .ok (prettyWriteMemberString st s)
  | .unitVariant name => prettyWriteString st name
  | .newtypeStruct _ v => keySerP st v
  | .vint _ n =>
    let b := pBeginString st
    let w := pWriteScalar b.1 (intToBytes n)
    .ok (w.1, b.2 ++ w.2 ++ [34])
  | _ => .error .keyMustBeAString
end

/-- `to_vec`: compact encode to a byte buffer. -/
def toVec (v : HValue) : Except SerErr (List Nat) := encC v

/-- `to_vec_pretty`: pretty encode to a byte buffer from the fresh
formatter state. -/
def toVecPretty (v : HValue) : Except SerErr (List Nat) :=
  (encP pInit v).map (fun p => p.2)

/-- Does the string contain three consecutive apostrophes? -/
def hasTriple : List Nat → Bool
  | 39 :: 39 :: 39 :: _ => true
  | _ :: tl => hasTriple tl
  | [] => false

/-- Value of an ASCII hex digit. -/
def hexVal (c : Nat) : Option Nat :=
  if 48 ≤ c ∧ c ≤ 57 then some (c - 48)
  else if 97 ≤ c ∧ c ≤ 102 then some (c - 87)
  else if 65 ≤ c ∧ c ≤ 70 then some (c - 55)
  else none

/-- Modelled from the spec: the Hjson decoder is an external collaborator
whose source is not under `src/`; this models only the fragment any
correct decoder must implement to invert §4.5 — a double-quoted JSON
string over ASCII bytes, where a `\uXXXX` escape denotes the code point
with that hex value and the mnemonic escapes denote their control
characters.  Returns the decoded code points, or `none` outside the
modelled fragment. -/
def decodeQuotedBody : Nat → List Nat → Option (List Nat)
  | _, [] => none
  | _, 34 :: rest => if rest.isEmpty then some [] else none
  | fuel + 1, 92 :: 117 :: h1 :: h2 :: h3 :: h4 :: rest =>
    match hexVal h1, hexVal h2, hexVal h3, hexVal h4 with
    | some v1, some v2, some v3, some v4 =>
      (decodeQuotedBody fuel rest).map
        (fun tl => (((v1 * 16 + v2) * 16 + v3) * 16 + v4) :: tl)
    | _, _, _, _ => none
  | fuel + 1, 92 :: e :: rest =>
    (if e = 98 then some 8
     else if e = 116 then some 9
     else if e = 110 then some 10
     else if e = 102 then some 12
     else if e = 114 then some 13
     else if e = 34 then some 34
     else if e = 92 then some 92
     else none).bind
      (fun c => (decodeQuotedBody fuel rest).map (fun tl => c :: tl))
  | fuel + 1, c :: rest =>
    if c < 128 then (decodeQuotedBody fuel rest).map (fun tl => c :: tl)
    else none
  | 0, _ => none

/-- Modelled from the spec: decode of one double-quoted JSON string
(see `decodeQuotedBody`). -/
def decodeJsonString (l : List Nat) : Option (List Nat) :=
  match l with
  | 34 :: rest => decodeQuotedBody rest.length rest
  | _ => none

/-! ### Claim theorems -/

/-- Claim C1, evaluated at the failing inputs.  The claim states that every
unsafe code point with a two- or three-byte UTF-8 encoding is re-emitted as
a `\uXXXX` escape.  The code contradicts it for every two-byte one: the
soft hyphen U+00AD (bytes `C2 AD`) and U+0600 (bytes `D8 80`) pass through
as their raw bytes, because the two-byte branch of `write_char_escape`
masks the lead byte with `0x1F << 6` instead of `(0x1F) << 6` and so
reconstructs a value in `0xC0..0xFF` that never falls in an unsafe range.
Three-byte code points such as the byte-order mark U+FEFF are escaped as
claimed. -/
theorem c1_twoByte_unescaped_bug :
    compactWriteString [0xAD] = [34, 194, 173, 34] ∧
    compactWriteString [0x600] = [34, 216, 128, 34] ∧
    compactWriteString [0xFEFF] = [34, 92, 117, 102, 101, 102, 102, 34] :=
  ⟨rfl, rfl, rfl⟩

/-- Claim C2, evaluated at the failing input.  Writing the object value
"a newline b" as a multiline triple-quoted block drops the line `a`
entirely (its byte 97 never reaches the output), because the loop sets
`has_content` on tab/space/carriage-return bytes instead of on
non-whitespace bytes; the claim requires every input line to be
reproduced.  Additionally, the string "a newline b apostrophe" contains
no triple apostrophe yet classifies as double-quoted, because
`RE_STR_MULTILINE` also rejects strings ending in an apostrophe —
contradicting the claim's "if and only if". -/
theorem c2_multiline_line_dropped_bug :
    prettyWriteString ⟨1, false, true, none⟩ [97, 10, 98] =
      .ok (⟨1, false, true, none⟩,
        [10, 32, 32, 32, 32, 39, 39, 39, 10, 10, 32, 32, 32, 32, 98,
         10, 32, 32, 32, 32, 39, 39, 39]) ∧
    ([10, 32, 32, 32, 32, 39, 39, 39, 10, 10, 32, 32, 32, 32, 98,
      10, 32, 32, 32, 32, 39, 39, 39].contains 97) = false ∧
    classifyString [97, 10, 98, 39] = .doubleQuoted ∧
    hasTriple [97, 10, 98, 39] = false ∧
    reHasNewline [97, 10, 98, 39] = true :=
  ⟨rfl, rfl, rfl, rfl, rfl⟩

/-- Claim C5, evaluated at the failing input.  Pretty-encoding the bare
string "x newline y" (or an array containing it) hits the unconditional
`current_indent -= 1` at the end of the multiline branch while the
increment was skipped (`in_object` is false), underflowing the `usize`
counter at zero — the claim asserts the counter only ever moves by the
balanced container `±1` and never goes negative. -/
theorem c5_indent_underflow_bug :
    toVecPretty (.vstr [120, 10, 121]) = .error .arithUnderflow ∧
    toVecPretty (.arr (.cons (.vstr [120, 10, 121]) .nil)) = .error .arithUnderflow :=
  ⟨rfl, rfl⟩

/-- Claim C9, evaluated at the failing input.  Encoding the two-character
string U+0006 U+0000 emits `"؀"` in both modes: the first test of
`write_char_escape` fuses the two raw bytes into the 16-bit value 0x0600,
escapes it as a single code point and skips both characters.  Any decoder
satisfying §4.5 reads that escape back as the single code point U+0600, so
`decode (encode v) = v` fails. -/
theorem c9_roundtrip_bug :
    toVec (.vstr [6, 0]) = .ok [34, 92, 117, 48, 54, 48, 48, 34] ∧
    toVecPretty (.vstr [6, 0]) = .ok [34, 92, 117, 48, 54, 48, 48, 34] ∧
    decodeJsonString [34, 92, 117, 48, 54, 48, 48, 34] = some [0x600] ∧
    ([0x600] : List Nat) ≠ [6, 0] :=
  ⟨rfl, rfl, rfl, by decide⟩

/-- Claim C6: an `f32` or `f64` whose classification is NaN or Infinite is
routed to `write_null` — `null` in compact mode, and in pretty mode `null`
after the one inline-value space owed when it is an object's value — while
every finite category goes through the numeric writer (the `dtoa`
rendering carried by the value). -/
theorem c6_nonfinite_floats_null (w : FWidth) (txt : List Nat) (st : PState) :
    encC (.vfloat w .nan txt) = .ok nullB ∧
    encC (.vfloat w .infinite txt) = .ok nullB ∧
    encP st (.vfloat w .nan txt) =
      .ok ({ st with inObject := false },
        (if st.inObject then [32] else []) ++ nullB) ∧
    encP st (.vfloat w .infinite txt) =
      .ok ({ st with inObject := false },
        (if st.inObject then [32] else []) ++ nullB) ∧
    encC (.vfloat w .zero txt) = .ok txt ∧
    encC (.vfloat w .subnormal txt) = .ok txt ∧
    encC (.vfloat w .normal txt) = .ok txt ∧
    encP st (.vfloat w .zero txt) =
      .ok ({ st with inObject := false },
        (if st.inObject then [32] else []) ++ txt) ∧
    encP st (.vfloat w .subnormal txt) =
      .ok ({ st with inObject := false },
        (if st.inObject then [32] else []) ++ txt) ∧
    encP st (.vfloat w .normal txt) =
      .ok ({ st with inObject := false },
        (if st.inObject then [32] else []) ++ txt) := by
  obtain ⟨ci, hv, io, nb⟩ := st
  cases io <;>
    exact ⟨rfl, rfl, rfl, rfl, rfl, rfl, rfl, rfl, rfl, rfl⟩

/-- Claim C7: in pretty mode an empty sequence or map — whether its length
hint was zero, or it was opened with a non-zero hint and closed with zero
children written — collapses to exactly the two bytes `[]` / `{}`, with a
single leading space exactly when the container is itself an inline object
value; no newline is emitted, `current_indent` is untouched, and the
`Empty`-state `Compound`'s `end` adds nothing (the first two conjuncts are
the whole value-level encode). -/
theorem c7_empty_containers_collapse (st : PState) :
    encP st (.arr .nil) =
      .ok ({ st with nextBracket := none },
        (if st.inObject then [32] else []) ++ [91, 93]) ∧
    encP st (.obj .nil) =
      .ok ({ st with nextBracket := none },
        (if st.inObject then [32] else []) ++ [123, 125]) ∧
    encP st (.vbytes []) =
      .ok ({ st with nextBracket := none },
        (if st.inObject then [32] else []) ++ [91, 93]) ∧
    pEndArray (pBeginArray st) =
      .ok ({ st with nextBracket := none },
        (if st.inObject then [32] else []) ++ [91, 93]) ∧
    pEndObject (pBeginObject st) =
      .ok ({ st with nextBracket := none },
        (if st.inObject then [32] else []) ++ [123, 125]) := by
  obtain ⟨ci, hv, io, nb⟩ := st
  cases io <;> exact ⟨rfl, rfl, rfl, rfl, rfl⟩

/-- Claim C10: a newtype struct serializes exactly as its inner value in
both modes and as a map key — no wrapper of any kind — whereas a newtype
variant is wrapped in a single-key object (shown for the compact mode by
the last conjunct). -/
theorem c10_newtype_struct_transparent (name var : List Nat) (v : HValue)
    (st : PState) :
    encC (.newtypeStruct name v) = encC v ∧
    encP st (.newtypeStruct name v) = encP st v ∧
    keySerC (.newtypeStruct name v) = keySerC v ∧
    keySerP st (.newtypeStruct name v) = keySerP st v ∧
    encC (.newtypeVariant name var v) =
      (encC v).map
        (fun inner => 123 :: compactWriteString var ++ 58 :: inner ++ [125]) := by
  refine ⟨rfl, rfl, rfl, rfl, ?_⟩
  cases h : encC v with
  | ok a => simp [encC, h, Except.map, Bind.bind, Except.bind]
  | error e => simp [encC, h, Except.map, Bind.bind, Except.bind]

/-- Claim C3: in pretty mode a string is emitted bare — verbatim bytes,
after the one inline-value space owed when it is an object's value — if
and only if it does not look like a bare JSON literal (`RE_VALUE`) and
passes the safe-to-leave-bare test (`RE_STR_NONE`); in particular `hello`
is bare in pretty mode while `true` is double-quoted in both modes. -/
theorem c3_bare_string_iff :
    (∀ s, classifyString s = .unquoted ↔ (reValue s = false ∧ reStrNone s = true)) ∧
    (∀ st s, classifyString s = .unquoted →
      prettyWriteString st s =
        .ok ({ st with inObject := false },
          (if st.inObject then [32] else []) ++ strBytes s)) ∧
    classifyString [104, 101, 108, 108, 111] = .unquoted ∧
    toVecPretty (.vstr [104, 101, 108, 108, 111]) = .ok [104, 101, 108, 108, 111] ∧
    classifyString [116, 114, 117, 101] ≠ .unquoted ∧
    toVec (.vstr [116, 114, 117, 101]) = .ok [34, 116, 114, 117, 101, 34] ∧
    toVecPretty (.vstr [116, 114, 117, 101]) = .ok [34, 116, 114, 117, 101, 34] := by
  refine ⟨?_, ?_, rfl, rfl, by decide, rfl, rfl⟩
  · intro s
    unfold classifyString
    cases hv : reValue s <;> cases hn : reStrNone s <;>
      simp <;> split_ifs <;> simp
  · intro st s h
    simp only [prettyWriteString, h]
    obtain ⟨ci, hv, io, nb⟩ := st
    cases io <;> rfl

/-- Witness for C3 at concrete inputs. -/
theorem c3_bare_string_iff_witness :
    classifyString [104, 101, 108, 108, 111] = .unquoted ∧
    prettyWriteString pInit [104, 101, 108, 108, 111] =
      .ok (pInit, [104, 101, 108, 108, 111]) ∧
    (reValue [104, 101, 108, 108, 111] = false ∧
      reStrNone [104, 101, 108, 108, 111] = true) :=
  ⟨rfl, c3_bare_string_iff.2.1 pInit [104, 101, 108, 108, 111] rfl,
   (c3_bare_string_iff.1 [104, 101, 108, 108, 111]).mp rfl⟩

/-- The inputs the `MapKeySerializer` accepts, per the claim: strings,
unit variant names, integers of every width, and newtype structs around
an accepted input. -/
def keyAccepted : HValue → Bool
  | .vstr _ => true
  | .unitVariant _ => true
  | .vint _ _ => true
  | .newtypeStruct _ v => keyAccepted v
  | _ => false

/-- `PrettyFormatter::write_string` never produces the key error (its only
failure is the indent underflow panic). -/
theorem prettyWriteString_no_keyErr (st : PState) (s : List Nat) :
    prettyWriteString st s ≠ .error .keyMustBeAString := by
  unfold prettyWriteString
  cases classifyString s with
  | unquoted => simp
  | doubleQuoted => simp
  | tripleQuoted => simp
  | multilineTripleQuoted =>
    by_cases h : (if st.inObject = true then st.currentIndent + 1 else st.currentIndent) = 0 <;>
      simp [usizeDec, h, Bind.bind, Except.bind]

/-- `keySerC` yields the key error exactly on the non-accepted inputs. -/
theorem keySerC_err_iff : ∀ k, (keySerC k = .error .keyMustBeAString ↔ keyAccepted k = false)
  | .unit => by simp [keySerC, keyAccepted]
  | .unitStruct _ => by simp [keySerC, keyAccepted]
  | .noneV => by simp [keySerC, keyAccepted]
  | .someV _ => by simp [keySerC, keyAccepted]
  | .vbool _ => by simp [keySerC, keyAccepted]
  | .vint _ _ => by simp [keySerC, keyAccepted]
  | .vfloat _ _ _ => by simp [keySerC, keyAccepted]
  | .vchar _ => by simp [keySerC, keyAccepted]
  | .vstr _ => by simp [keySerC, keyAccepted]
  | .vbytes _ => by simp [keySerC, keyAccepted]
  | .arr _ => by simp [keySerC, keyAccepted]
  | .obj _ => by simp [keySerC, keyAccepted]
  | .unitVariant _ => by simp [keySerC, keyAccepted]
  | .newtypeStruct _ v => by
    simpa [keySerC, keyAccepted] using keySerC_err_iff v
  | .newtypeVariant _ _ _ => by simp [keySerC, keyAccepted]
  | .tupleVariant _ _ => by simp [keySerC, keyAccepted]
  | .structVariant _ _ => by simp [keySerC, keyAccepted]

/-- `keySerP` yields the key error exactly on the non-accepted inputs,
from every formatter state. -/
theorem keySerP_err_iff (st : PState) :
    ∀ k, (keySerP st k = .error .keyMustBeAString ↔ keyAccepted k = false)
  | .unit => by simp [keySerP, keyAccepted]
  | .unitStruct _ => by simp [keySerP, keyAccepted]
  | .noneV => by simp [keySerP, keyAccepted]
  | .someV _ => by simp [keySerP, keyAccepted]
  | .vbool _ => by simp [keySerP, keyAccepted]
  | .vint _ _ => by simp [keySerP, keyAccepted]
  | .vfloat _ _ _ => by simp [keySerP, keyAccepted]
  | .vchar _ => by simp [keySerP, keyAccepted]
  | .vstr _ => by simp [keySerP, keyAccepted]
  | .vbytes _ => by simp [keySerP, keyAccepted]
  | .arr _ => by simp [keySerP, keyAccepted]
  | .obj _ => by simp [keySerP, keyAccepted]
  | .unitVariant name => by
    simp only [keySerP, keyAccepted]
    simpa using prettyWriteString_no_keyErr st name
  | .newtypeStruct _ v => by
    simpa [keySerP, keyAccepted] using keySerP_err_iff st v
  | .newtypeVariant _ _ _ => by simp [keySerP, keyAccepted]
  | .tupleVariant _ _ => by simp [keySerP, keyAccepted]
  | .structVariant _ _ => by simp [keySerP, keyAccepted]

/-- Claim C4: the map-key serializer accepts exactly strings, unit variant
names, newtype-struct wrappers of accepted inputs, and integers of every
width; integer keys are always double-quoted; every other input fails with
the key-must-be-a-string error, and a map whose first pending entry has
such a key aborts the whole encode with that error. -/
theorem c4_key_restriction :
    (∀ k, keySerC k = .error .keyMustBeAString ↔ keyAccepted k = false) ∧
    (∀ st k, keySerP st k = .error .keyMustBeAString ↔ keyAccepted k = false) ∧
    (∀ w n, keySerC (.vint w n) = .ok (34 :: intToBytes n ++ [34])) ∧
    (∀ st w n, st.inObject = false →
      keySerP st (.vint w n) = .ok (st, 34 :: intToBytes n ++ [34])) ∧
    (∀ k v tl, keyAccepted k = false →
      encC (.obj (.cons k v tl)) = .error .keyMustBeAString) ∧
    (∀ st k v tl, keyAccepted k = false →
      encP st (.obj (.cons k v tl)) = .error .keyMustBeAString) := by
  refine ⟨keySerC_err_iff, keySerP_err_iff, ?_, ?_, ?_, ?_⟩
  · intro w n
    rfl
  · intro st w n h
    obtain ⟨ci, hv, io, nb⟩ := st
    simp only at h
    subst h
    rfl
  · intro k v tl h
    have hk := (keySerC_err_iff k).mpr h
    simp [encC, encCEntries, hk, Bind.bind, Except.bind]
  · intro st k v tl h
    have hk := (keySerP_err_iff (pBeginObjectKey (pBeginObject st)).1 k).mpr h
    simp [encP, serializeMapP, encPEntries, hk, Bind.bind, Except.bind,
      HEntries.length]

/-- Witness for C4 at concrete inputs. -/
theorem c4_key_restriction_witness :
    keySerC (.vbool true) = .error .keyMustBeAString ∧
    keySerP pInit (.someV (.vstr [97])) = .error .keyMustBeAString ∧
    keySerC (.vint .u8 7) = .ok [34, 55, 34] ∧
    keySerP pInit (.vint .i64 (-3)) = .ok (pInit, [34, 45, 51, 34]) ∧
    encC (.obj (.cons (.arr .nil) .unit .nil)) = .error .keyMustBeAString ∧
    encP pInit (.obj (.cons (.obj .nil) .unit .nil)) = .error .keyMustBeAString :=
  ⟨(c4_key_restriction.1 _).mpr rfl,
   (c4_key_restriction.2.1 pInit _).mpr rfl,
   c4_key_restriction.2.2.1 .u8 7,
   c4_key_restriction.2.2.2.1 pInit .i64 (-3) rfl,
   c4_key_restriction.2.2.2.2.1 _ _ _ rfl,
   c4_key_restriction.2.2.2.2.2 pInit _ _ _ rfl⟩

/-! ### UTF-8 validity of the emitted bytes (claim C8)

A byte list is valid UTF-8 when it is the encoding of some sequence of
Unicode scalar values.  The development shows every chunk the encoder can
emit is of this shape. -/

/-- Valid UTF-8: the byte list encodes some scalar-value sequence. -/
def validUtf8 (l : List Nat) : Prop :=
  ∃ cs : List Nat, cs.all scalarOk = true ∧ l = strBytes cs

theorem strBytes_nil : strBytes [] = [] := rfl

theorem strBytes_cons (c : Nat) (s : List Nat) :
    strBytes (c :: s) = utf8Encode c ++ strBytes s := rfl

theorem strBytes_append (a b : List Nat) :
    strBytes (a ++ b) = strBytes a ++ strBytes b :=
  List.flatMap_append a b utf8Encode

theorem vu_nil : validUtf8 [] := ⟨[], rfl, rfl⟩

theorem vu_append {a b : List Nat} (ha : validUtf8 a) (hb : validUtf8 b) :
    validUtf8 (a ++ b) := by
  obtain ⟨cs1, h1, e1⟩ := ha
  obtain ⟨cs2, h2, e2⟩ := hb
  exact ⟨cs1 ++ cs2, by simp [List.all_append, h1, h2],
    by rw [e1, e2, strBytes_append]⟩

theorem utf8Encode_ascii {c : Nat} (h : c < 128) : utf8Encode c = [c] := by
  simp [utf8Encode, h]

theorem scalarOk_of_lt {c : Nat} (h : c < 0xD800) : scalarOk c = true := by
  simp [scalarOk]; omega

theorem vu_char {c : Nat} (h : scalarOk c = true) : validUtf8 (utf8Encode c) :=
  ⟨[c], by simp [h], by simp [strBytes]⟩

theorem strBytes_all_ascii {l : List Nat} (h : ∀ b ∈ l, b < 128) :
    strBytes l = l := by
  induction l with
  | nil => rfl
  | cons b tl ih =>
    rw [strBytes_cons, utf8Encode_ascii (h b (by simp)),
      ih (fun x hx => h x (by simp [hx]))]
    rfl

theorem vu_ascii {l : List Nat} (h : ∀ b ∈ l, b < 128) : validUtf8 l :=
  ⟨l, by
    rw [List.all_eq_true]
    exact fun x hx => scalarOk_of_lt (lt_trans (h x hx) (by norm_num)),
   (strBytes_all_ascii h).symm⟩

/-- Shape of a two-byte encoding. -/
theorem utf8_2 {c : Nat} (h1 : 0x80 ≤ c) (h2 : c < 0x800) :
    utf8Encode c = [192 + c / 64, 128 + c % 64] := by
  unfold utf8Encode
  rw [if_neg (by omega), if_pos h2]

/-- Shape of a three-byte encoding. -/
theorem utf8_3 {c : Nat} (h1 : 0x800 ≤ c) (h2 : c < 0x10000) :
    utf8Encode c = [224 + c / 4096, 128 + c / 64 % 64, 128 + c % 64] := by
  unfold utf8Encode
  rw [if_neg (by omega), if_neg (by omega), if_pos h2]

/-- Shape of a four-byte encoding. -/
theorem utf8_4 {c : Nat} (h1 : 0x10000 ≤ c) :
    utf8Encode c =
      [240 + c / 262144, 128 + c / 4096 % 64, 128 + c / 64 % 64, 128 + c % 64] := by
  unfold utf8Encode
  rw [if_neg (by omega), if_neg (by omega), if_neg (by omega)]

/-- No unsafe range lies below `0x7F`. -/
theorem range_below {ch : Nat} (h : ch < 0x7F) : inEscapeRange ch = false := by
  simp only [inEscapeRange, decide_eq_false_iff_not]
  omega

/-- No unsafe range lies between `0x2070` and `0xFEFE`. -/
theorem range_mid {ch : Nat} (h1 : 0x2070 ≤ ch) (h2 : ch < 0xFEFF) :
    inEscapeRange ch = false := by
  simp only [inEscapeRange, decide_eq_false_iff_not]
  omega

/-- No unsafe range meets `0xC0..0xFF` (where the buggy two-byte
reconstruction always lands). -/
theorem range_c0 {ch : Nat} (h1 : 0xC0 ≤ ch) (h2 : ch ≤ 0xFF) :
    inEscapeRange ch = false := by
  simp only [inEscapeRange, decide_eq_false_iff_not]
  omega

/-- The raw two-byte test cannot fire when the first byte is an ASCII
escape trigger and the second is `0xB6` or above (in particular a
multi-byte lead byte). -/
theorem range_pair {c b1 : Nat} (hc : c ≤ 92) (hb : 0xB6 ≤ b1) (hb2 : b1 ≤ 255) :
    inEscapeRange (c * 256 + b1) = false := by
  simp only [inEscapeRange, decide_eq_false_iff_not]
  omega

/-- Hex digits are ASCII. -/
theorem hexDigit_ascii {n : Nat} (h : n < 16) : hexDigit n < 128 := by
  unfold hexDigit
  split <;> omega

/-- The `\uXXXX` escape is ASCII. -/
theorem u16Escape_ascii {ch : Nat} (h : ch < 0x10000) :
    ∀ b ∈ u16Escape ch, b < 128 := by
  intro b hb
  simp only [u16Escape, List.mem_cons, List.not_mem_nil, or_false] at hb
  rcases hb with h' | h' | h' | h' | h' | h' <;> subst h' <;>
    first
      | omega
      | exact hexDigit_ascii (by omega)

/-- An ASCII byte with a nonzero `ESCAPE` entry is a control character,
the quote, or the backslash. -/
theorem escape_trigger {b : Nat} (hb : b < 128) (h : ESCAPE b ≠ 0) :
    b ≤ 31 ∨ b = 34 ∨ b = 92 := by
  unfold ESCAPE at h
  split_ifs at h <;> omega

/-- Possible `ESCAPE` values of an ASCII trigger byte. -/
theorem escape_cases {b : Nat} (hb : b < 128) (h : ESCAPE b ≠ 0) :
    ESCAPE b = 98 ∨ ESCAPE b = 116 ∨ ESCAPE b = 110 ∨ ESCAPE b = 102 ∨
      ESCAPE b = 114 ∨ ESCAPE b = 34 ∨ ESCAPE b = 92 ∨ ESCAPE b = 117 := by
  rcases escape_trigger hb h with h1 | h1 | h1
  · interval_cases b <;> decide
  · subst h1; decide
  · subst h1; decide

/-- Definitional unfolding of `write_char_escape` on two or more bytes. -/
theorem writeCharEscape_cons2 (b0 b1 : Nat) (rest : List Nat) :
    writeCharEscape (b0 :: b1 :: rest) =
      if inEscapeRange (b0 * 256 + b1) then (u16Escape (b0 * 256 + b1), 2)
      else wceInner b0 (b1 :: rest) := rfl

/-- Every non-ASCII byte is marked `UU = 1`. -/
theorem escape_mb {b : Nat} (h1 : 128 ≤ b) (h2 : b ≤ 255) : ESCAPE b = 1 := by
  unfold ESCAPE
  split_ifs <;> omega

/-- On an ASCII trigger byte, `wceInner` emits an ASCII escape and
consumes exactly that byte. -/
theorem wceInner_ascii {b : Nat} (hb : b < 128) (hesc : ESCAPE b ≠ 0)
    (rest : List Nat) :
    ∃ es, wceInner b rest = (es, 1) ∧ ∀ x ∈ es, x < 128 := by
  rcases escape_cases hb hesc with h | h | h | h | h | h | h | h
  · exact ⟨[92, 98], by simp [wceInner, h], by decide⟩
  · exact ⟨[92, 116], by simp [wceInner, h], by decide⟩
  · exact ⟨[92, 110], by simp [wceInner, h], by decide⟩
  · exact ⟨[92, 102], by simp [wceInner, h], by decide⟩
  · exact ⟨[92, 114], by simp [wceInner, h], by decide⟩
  · exact ⟨[92, 34], by simp [wceInner, h], by decide⟩
  · exact ⟨[92, 92], by simp [wceInner, h], by decide⟩
  · refine ⟨[92, 117, 48, 48, hexDigit (b / 16), hexDigit (b % 16)],
      by simp [wceInner, h], ?_⟩
    intro x hx
    simp only [List.mem_cons, List.not_mem_nil, or_false] at hx
    rcases hx with h' | h' | h' | h' | h' | h' <;> subst h' <;>
      first
        | omega
        | exact hexDigit_ascii (by omega)

/-- With a `UU`-classified first byte, `wceInner` is the guarded
multi-byte dispatch. -/
theorem wceInner_one {b0 : Nat} (h : ESCAPE b0 = 1) (rest : List Nat) :
    wceInner b0 rest = wceUU b0 rest := by
  simp [wceInner, h]

theorem wceUU_cons (b0 b1 : Nat) (rest2 : List Nat) :
    wceUU b0 (b1 :: rest2) =
      if b0 / 32 = 6 ∧ b1 / 64 = 2 then
        (if inEscapeRange (b0 / 64 % 32 * 64 + b1 % 64) then
          (u16Escape (b0 / 64 % 32 * 64 + b1 % 64), 2)
        else ([b0, b1], 2))
      else wceUU3 b0 b1 rest2 := rfl

theorem wceUU3_cons (b0 b1 b2 : Nat) (rest3 : List Nat) :
    wceUU3 b0 b1 (b2 :: rest3) =
      if b0 / 16 = 14 ∧ b1 / 64 = 2 ∧ b2 / 64 = 2 then
        (if inEscapeRange ((b0 * 16 % 256 + b1 / 4 % 16) * 256 +
            (b1 * 64 % 256 / 64 * 64 + b2 % 64)) then
          (u16Escape ((b0 * 16 % 256 + b1 / 4 % 16) * 256 +
            (b1 * 64 % 256 / 64 * 64 + b2 % 64)), 3)
        else ([b0, b1, b2], 3))
      else
        match rest3 with
        | [] => ([b0], 1)
        | b3 :: _ => wceUU4 b0 b1 b2 b3 := rfl

/-- `write_char_escape` on a two-byte UTF-8 character: the raw-pair test
misses, the two-byte branch reconstructs a value in `0xC0..0xFF` (the
masking bug), no unsafe range matches, and the original bytes pass
through. -/
theorem wce_2byte {c : Nat} (h1 : 0x80 ≤ c) (h2 : c < 0x800) (R : List Nat) :
    writeCharEscape (utf8Encode c ++ R) = (utf8Encode c, 2) := by
  rw [utf8_2 h1 h2]
  have hch : (192 + c / 64) / 64 % 32 * 64 + (128 + c % 64) % 64 =
      192 + c % 64 := by omega
  show writeCharEscape ((192 + c / 64) :: (128 + c % 64) :: R) = _
  rw [writeCharEscape_cons2, range_mid (by omega) (by omega),
    if_neg Bool.false_ne_true,
    wceInner_one (escape_mb (by omega) (by omega)),
    wceUU_cons, if_pos ⟨by omega, by omega⟩, hch,
    range_c0 (by omega) (by omega), if_neg Bool.false_ne_true]

/-- `write_char_escape` on a three-byte UTF-8 character: the raw-pair test
misses, the three-byte branch reconstructs the code point exactly, tests
it against the unsafe ranges, and either escapes it or passes the bytes
through; three bytes are consumed either way. -/
theorem wce_3byte {c : Nat} (h1 : 0x800 ≤ c) (h2 : c < 0x10000) (R : List Nat) :
    writeCharEscape (utf8Encode c ++ R) =
      if inEscapeRange c then (u16Escape c, 3) else (utf8Encode c, 3) := by
  rw [utf8_3 h1 h2]
  have hng : ¬((224 + c / 4096) / 32 = 6 ∧ (128 + c / 64 % 64) / 64 = 2) := by
    intro hand
    omega
  have hch : ((224 + c / 4096) * 16 % 256 + (128 + c / 64 % 64) / 4 % 16) * 256 +
      ((128 + c / 64 % 64) * 64 % 256 / 64 * 64 + (128 + c % 64) % 64) = c := by
    omega
  show writeCharEscape
      ((224 + c / 4096) :: (128 + c / 64 % 64) :: (128 + c % 64) :: R) = _
  rw [writeCharEscape_cons2, range_mid (by omega) (by omega),
    if_neg Bool.false_ne_true,
    wceInner_one (escape_mb (by omega) (by omega)),
    wceUU_cons, if_neg hng,
    wceUU3_cons, if_pos ⟨by omega, by omega, by omega⟩, hch]

/-- `write_char_escape` on a four-byte UTF-8 character: the brace-delimited
extended escape is emitted (always ASCII) and four bytes are consumed. -/
theorem wce_4byte {c : Nat} (h1 : 0x10000 ≤ c) (h2 : c < 0x110000)
    (R : List Nat) :
    ∃ es, writeCharEscape (utf8Encode c ++ R) = (es, 4) ∧ ∀ x ∈ es, x < 128 := by
  rw [utf8_4 h1]
  have hng2 : ¬((240 + c / 262144) / 32 = 6 ∧ (128 + c / 4096 % 64) / 64 = 2) := by
    intro hand
    omega
  have hng3 : ¬((240 + c / 262144) / 16 = 14 ∧ (128 + c / 4096 % 64) / 64 = 2 ∧
      (128 + c / 64 % 64) / 64 = 2) := by
    intro hand
    omega
  refine ⟨[92, 117, 123,
    hexDigit ((240 + c / 262144) / 4 % 2),
    hexDigit ((240 + c / 262144) * 4 % 256 % 16 / 4 * 4 +
      (128 + c / 4096 % 64) / 16 % 4),
    hexDigit ((128 + c / 4096 % 64) % 16),
    hexDigit ((128 + c / 64 % 64) / 4 % 16),
    hexDigit ((128 + c / 64 % 64) * 4 % 256 % 16 / 4 * 4 +
      (128 + c % 64) / 16 % 4),
    hexDigit ((128 + c % 64) % 16),
    125], ?_, ?_⟩
  · show writeCharEscape
        ((240 + c / 262144) :: (128 + c / 4096 % 64) :: (128 + c / 64 % 64) ::
          (128 + c % 64) :: R) = _
    rw [writeCharEscape_cons2, range_mid (by omega) (by omega),
      if_neg Bool.false_ne_true,
      wceInner_one (escape_mb (by omega) (by omega)),
      wceUU_cons, if_neg hng2,
      wceUU3_cons, if_neg hng3]
    show wceUU4 _ _ _ _ = _
    rw [wceUU4, if_pos ⟨by omega, by omega, by omega, by omega⟩]
  · intro x hx
    simp only [List.mem_cons, List.not_mem_nil, or_false] at hx
    rcases hx with h' | h' | h' | h' | h' | h' | h' | h' | h' | h' <;>
      subst h' <;>
      first
        | omega
        | exact hexDigit_ascii (by omega)

theorem escapeLoopF_nil (f : Nat) : escapeLoopF f [] = [] := by
  cases f <;> rfl

theorem escapeLoopF_cons (f b : Nat) (rest : List Nat) :
    escapeLoopF (f + 1) (b :: rest) =
      if ESCAPE b = 0 then b :: escapeLoopF f rest
      else (writeCharEscape (b :: rest)).1 ++
        escapeLoopF f (rest.drop ((writeCharEscape (b :: rest)).2 - 1)) := rfl

theorem writeCharEscape_one (b0 : Nat) :
    writeCharEscape [b0] =
      if inEscapeRange b0 then (u16Escape b0, 1) else wceInner b0 [] := rfl

theorem utf8Encode_length_pos (c : Nat) : 1 ≤ (utf8Encode c).length := by
  unfold utf8Encode
  split_ifs <;> simp

/-- Head byte of the encoding of a non-ASCII scalar: a lead byte at or
above `0xC2`. -/
theorem utf8_head_large {c : Nat} (h : 128 ≤ c) (hs : scalarOk c = true) :
    ∃ b1 T, utf8Encode c = b1 :: T ∧ 0xB6 ≤ b1 ∧ b1 ≤ 255 := by
  have hlt : c < 0x110000 := by
    simp only [scalarOk, decide_eq_true_eq] at hs
    omega
  by_cases h2 : c < 0x800
  · rw [utf8_2 h h2]
    exact ⟨_, _, rfl, by omega, by omega⟩
  · by_cases h3 : c < 0x10000
    · rw [utf8_3 (by omega) h3]
      exact ⟨_, _, rfl, by omega, by omega⟩
    · rw [utf8_4 (by omega)]
      exact ⟨_, _, rfl, by omega, by omega⟩

/-- The escape copy loop turns the bytes of any scalar string into valid
UTF-8: runs of unescaped bytes are ASCII, escapes are ASCII, and multi-byte
passthroughs are whole character encodings. -/
theorem escapeLoop_valid :
    ∀ fuel s, (strBytes s).length ≤ fuel → s.all scalarOk = true →
      validUtf8 (escapeLoopF fuel (strBytes s)) := by
  intro fuel
  induction fuel with
  | zero =>
    intro s hlen hs
    cases fuelZero : strBytes s with
    | nil => exact vu_nil
    | cons b tl =>
      rw [fuelZero] at hlen
      simp at hlen
  | succ f ih =>
    intro s hlen hs
    cases s with
    | nil =>
      rw [strBytes_nil, escapeLoopF_nil]
      exact vu_nil
    | cons c rest =>
      simp only [List.all_cons, Bool.and_eq_true] at hs
      obtain ⟨hc, hrest⟩ := hs
      rw [strBytes_cons] at hlen ⊢
      rw [List.length_append] at hlen
      by_cases hA : c < 128
      · have hl1 : (utf8Encode c).length = 1 := by
          rw [utf8Encode_ascii hA]
          rfl
        rw [utf8Encode_ascii hA]
        simp only [List.singleton_append]
        rw [escapeLoopF_cons]
        by_cases hE : ESCAPE c = 0
        · rw [if_pos hE]
          exact vu_append (a := [c]) (vu_ascii (by simpa using hA))
            (ih rest (by omega) hrest)
        · rw [if_neg hE]
          have hc92 : c ≤ 92 := by
            rcases escape_trigger hA hE with h' | h' | h' <;> omega
          cases rest with
          | nil =>
            rw [strBytes_nil]
            obtain ⟨es, hes, hascii⟩ := wceInner_ascii hA hE []
            rw [writeCharEscape_one, range_below (by omega),
              if_neg Bool.false_ne_true, hes]
            simp only [List.drop_nil]
            rw [escapeLoopF_nil]
            exact vu_append (vu_ascii hascii) vu_nil
          | cons c2 rest2 =>
            simp only [List.all_cons, Bool.and_eq_true] at hrest
            obtain ⟨hc2, hrest2⟩ := hrest
            rw [strBytes_cons] at hlen ⊢
            rw [List.length_append] at hlen
            by_cases hA2 : c2 < 128
            · have hl2 : (utf8Encode c2).length = 1 := by
                rw [utf8Encode_ascii hA2]
                rfl
              rw [utf8Encode_ascii hA2]
              simp only [List.singleton_append]
              by_cases hp : inEscapeRange (c * 256 + c2) = true
              · rw [writeCharEscape_cons2, if_pos hp]
                simp only [List.drop_succ_cons, List.drop_zero]
                exact vu_append
                  (vu_ascii (u16Escape_ascii (by omega)))
                  (ih rest2 (by omega) hrest2)
              · rw [writeCharEscape_cons2, if_neg hp]
                obtain ⟨es, hes, hascii⟩ := wceInner_ascii hA hE (c2 :: strBytes rest2)
                rw [hes]
                simp only [Nat.sub_self, List.drop_zero]
                have hcont := ih (c2 :: rest2)
                  (by rw [strBytes_cons, List.length_append]; omega)
                  (by simp [List.all_cons, hc2, hrest2])
                rw [strBytes_cons, utf8Encode_ascii hA2,
                  List.singleton_append] at hcont
                exact vu_append (vu_ascii hascii) hcont
            · obtain ⟨b1, T1, he2, hb1a, hb1b⟩ :=
                utf8_head_large (by omega) hc2
              rw [he2]
              simp only [List.cons_append]
              rw [writeCharEscape_cons2, range_pair hc92 hb1a hb1b,
                if_neg Bool.false_ne_true]
              obtain ⟨es, hes, hascii⟩ := wceInner_ascii hA hE _
              rw [hes]
              simp only [Nat.sub_self, List.drop_zero]
              have hcont := ih (c2 :: rest2)
                (by rw [strBytes_cons, List.length_append]; omega)
                (by simp [List.all_cons, hc2, hrest2])
              rw [strBytes_cons, he2] at hcont
              simp only [List.cons_append] at hcont
              exact vu_append (vu_ascii hascii) hcont
      · have hlt : c < 0x110000 := by
          simp only [scalarOk, decide_eq_true_eq] at hc
          omega
        by_cases h2 : c < 0x800
        · have hl1 : (utf8Encode c).length = 2 := by
            rw [utf8_2 (by omega) h2]
            rfl
          have hW := wce_2byte (by omega) h2 (strBytes rest)
          rw [utf8_2 (by omega) h2] at hW ⊢
          simp only [List.cons_append, List.nil_append] at hW ⊢
          rw [escapeLoopF_cons,
            if_neg (by rw [escape_mb (by omega) (by omega)]; omega), hW]
          simp only [List.drop_succ_cons, List.drop_zero]
          refine vu_append ?_ (ih rest (by omega) hrest)
          have hv := vu_char (c := c) hc
          rw [utf8_2 (by omega) h2] at hv
          exact hv
        · by_cases h3 : c < 0x10000
          · have hl1 : (utf8Encode c).length = 3 := by
              rw [utf8_3 (by omega) h3]
              rfl
            have hW := wce_3byte (by omega) h3 (strBytes rest)
            rw [utf8_3 (by omega) h3] at hW ⊢
            simp only [List.cons_append, List.nil_append] at hW ⊢
            rw [escapeLoopF_cons,
              if_neg (by rw [escape_mb (by omega) (by omega)]; omega), hW]
            by_cases hr : inEscapeRange c = true
            · rw [if_pos hr]
              simp only [List.drop_succ_cons, List.drop_zero]
              exact vu_append (vu_ascii (u16Escape_ascii (by omega)))
                (ih rest (by omega) hrest)
            · rw [if_neg hr]
              simp only [List.drop_succ_cons, List.drop_zero]
              refine vu_append ?_ (ih rest (by omega) hrest)
              have hv := vu_char (c := c) hc
              rw [utf8_3 (by omega) h3] at hv
              exact hv
          · have hl1 : (utf8Encode c).length = 4 := by
              rw [utf8_4 (by omega)]
              rfl
            obtain ⟨es, hes, hascii⟩ :=
              wce_4byte (c := c) (by omega) hlt (strBytes rest)
            rw [utf8_4 (by omega)] at hes ⊢
            simp only [List.cons_append, List.nil_append] at hes ⊢
            rw [escapeLoopF_cons,
              if_neg (by rw [escape_mb (by omega) (by omega)]; omega), hes]
            simp only [List.drop_succ_cons, List.drop_zero]
            exact vu_append (vu_ascii hascii) (ih rest (by omega) hrest)

/-- The whole escaped body of a scalar string is valid UTF-8. -/
theorem escapeBody_valid {s : List Nat} (hs : s.all scalarOk = true) :
    validUtf8 (escapeBody (strBytes s)) :=
  escapeLoop_valid (strBytes s).length s le_rfl hs

/-- The compact string writer emits valid UTF-8. -/
theorem compactWriteString_valid {s : List Nat} (hs : s.all scalarOk = true) :
    validUtf8 (compactWriteString s) := by
  unfold compactWriteString
  exact vu_append (a := [34]) (vu_ascii (by simp))
    (vu_append (escapeBody_valid hs) (vu_ascii (by simp)))

theorem vu_str {s : List Nat} (hs : s.all scalarOk = true) :
    validUtf8 (strBytes s) :=
  ⟨s, hs, rfl⟩

theorem natDigitsF_ascii (fuel : Nat) :
    ∀ n, ∀ b ∈ natDigitsF fuel n, b < 128 := by
  induction fuel with
  | zero =>
    intro n b hb
    simp [natDigitsF] at hb
  | succ f ih =>
    intro n b hb
    rw [natDigitsF] at hb
    split at hb
    · simp at hb
    · rw [List.mem_append] at hb
      rcases hb with hb | hb
      · exact ih _ b hb
      · simp at hb
        omega

theorem natToBytes_ascii (n : Nat) : ∀ b ∈ natToBytes n, b < 128 := by
  unfold natToBytes
  split
  · simp
  · exact natDigitsF_ascii n n

theorem intToBytes_ascii (i : Int) : ∀ b ∈ intToBytes i, b < 128 := by
  unfold intToBytes
  split
  · intro b hb
    rw [List.mem_cons] at hb
    rcases hb with hb | hb
    · omega
    · exact natToBytes_ascii _ b hb
  · exact natToBytes_ascii _

theorem indentBytes_succ (n : Nat) :
    indentBytes (n + 1) = [32, 32] ++ indentBytes n := by
  simp [indentBytes, List.replicate_succ]

theorem indentBytes_ascii (n : Nat) : ∀ b ∈ indentBytes n, b < 128 := by
  induction n with
  | zero => simp [indentBytes]
  | succ m ih =>
    rw [indentBytes_succ]
    intro b hb
    rw [List.mem_append] at hb
    rcases hb with hb | hb
    · simp at hb
      omega
    · exact ih b hb

theorem pSpace_ascii (st : PState) : ∀ b ∈ (pSpace st).2, b < 128 := by
  unfold pSpace
  split <;> simp

theorem mlLoop_step (ind : List Nat) :
    ∀ bs : List Nat, (∀ b ∈ bs, b ≠ 10) → ∀ rest cur hc hn,
      mlLoop ind (bs ++ rest) cur hc hn =
        mlLoop ind rest (cur ++ bs)
          (hc || bs.any (fun b => decide (b = 9 ∨ b = 32 ∨ b = 13))) hn := by
  intro bs
  induction bs with
  | nil =>
    intro hno rest cur hc hn
    simp only [List.nil_append, List.append_nil, List.any_nil, Bool.or_false]
  | cons b tl ih =>
    intro hno rest cur hc hn
    have hb : b ≠ 10 := hno b (by simp)
    rw [List.cons_append, mlLoop, if_neg hb,
      ih (fun x hx => hno x (by simp [hx])) rest]
    simp only [List.append_assoc, List.singleton_append, List.any_cons,
      Bool.or_assoc]

theorem utf8_no_ten {c : Nat} (h : c ≠ 10) : ∀ b ∈ utf8Encode c, b ≠ 10 := by
  by_cases hA : c < 128
  · rw [utf8Encode_ascii hA]
    intro b hb
    simp at hb
    omega
  · by_cases h2 : c < 0x800
    · rw [utf8_2 (by omega) h2]
      intro b hb
      simp at hb
      omega
    · by_cases h3 : c < 0x10000
      · rw [utf8_3 (by omega) h3]
        intro b hb
        simp at hb
        omega
      · rw [utf8_4 (by omega)]
        intro b hb
        simp at hb
        omega

/-- The multiline content loop emits valid UTF-8 whenever the pending span
is valid: spans grow by whole character encodings and are flushed intact
(or replaced by a bare newline, per the `has_content` logic). -/
theorem mlLoop_valid {ind : List Nat} (hind : ∀ b ∈ ind, b < 128) :
    ∀ s cur hc hn, s.all scalarOk = true → validUtf8 cur →
      validUtf8 (mlLoop ind (strBytes s) cur hc hn) := by
  intro s
  induction s with
  | nil =>
    intro cur hc hn _ hcur
    rw [strBytes_nil, mlLoop]
    refine vu_append ?_ ?_
    · split
      · exact vu_nil
      · exact vu_append (vu_ascii hind) hcur
    · split
      · exact vu_ascii (by simp)
      · exact vu_nil
  | cons c tl ih =>
    intro cur hc hn hall hcur
    simp only [List.all_cons, Bool.and_eq_true] at hall
    obtain ⟨hc1, hall⟩ := hall
    rw [strBytes_cons]
    by_cases h10 : c = 10
    · subst h10
      rw [utf8Encode_ascii (by omega), List.singleton_append, mlLoop,
        if_pos rfl]
      refine vu_append ?_ (ih [] false true hall vu_nil)
      split
      · exact vu_append (vu_append (vu_ascii hind) hcur) (vu_ascii (by simp))
      · exact vu_ascii (by simp)
    · rw [mlLoop_step ind (utf8Encode c) (utf8_no_ten h10)]
      exact ih _ _ hn hall (vu_append hcur (vu_char hc1))

/-- `PrettyFormatter::write_string` only emits valid UTF-8. -/
theorem prettyWriteString_valid {st : PState} {s : List Nat}
    (hs : s.all scalarOk = true) {st' : PState} {out : List Nat}
    (h : prettyWriteString st s = .ok (st', out)) : validUtf8 out := by
  unfold prettyWriteString at h
  cases hk : classifyString s with
  | unquoted =>
    rw [hk] at h
    injection h with h
    injection h with h1 h2
    subst h2
    exact vu_append (a := (pSpace st).2) (vu_ascii (pSpace_ascii st)) (vu_str hs)
  | doubleQuoted =>
    rw [hk] at h
    injection h with h
    injection h with h1 h2
    subst h2
    exact vu_append
      (vu_append (a := (pSpace st).2) (vu_ascii (pSpace_ascii st))
        (vu_append (a := [34]) (vu_ascii (by decide)) (escapeBody_valid hs)))
      (vu_ascii (by decide))
  | tripleQuoted =>
    rw [hk] at h
    injection h with h
    injection h with h1 h2
    subst h2
    exact vu_append
      (vu_append
        (vu_append (a := (pSpace st).2) (vu_ascii (pSpace_ascii st))
          (vu_ascii (by decide)))
        (vu_str hs))
      (vu_ascii (by decide))
  | multilineTripleQuoted =>
    rw [hk] at h
    simp only [Bind.bind, Except.bind] at h
    cases hd : usizeDec (if st.inObject = true then st.currentIndent + 1
        else st.currentIndent) with
    | error e => rw [hd] at h; cases h
    | ok n =>
      rw [hd] at h
      injection h with h
      injection h with h1 h2
      subst h2
      have hpre : validUtf8
          (if st.inObject = true then
            [10] ++ indentBytes (if st.inObject = true then st.currentIndent + 1
              else st.currentIndent)
          else []) := by
        split
        · exact vu_append (a := [10]) (vu_ascii (by decide))
            (vu_ascii (indentBytes_ascii _))
        · exact vu_nil
      exact vu_append
        (vu_append
          (vu_append
            (vu_append hpre (vu_ascii (by decide)))
            (mlLoop_valid (indentBytes_ascii _) s [] false false hs vu_nil))
          (vu_ascii (indentBytes_ascii _)))
        (vu_ascii (by decide))

/-- `PrettyFormatter::write_member_string` only emits valid UTF-8. -/
theorem prettyWriteMemberString_valid (st : PState) {s : List Nat}
    (hs : s.all scalarOk = true) :
    validUtf8 (prettyWriteMemberString st s).2 := by
  unfold prettyWriteMemberString
  split
  · exact vu_str hs
  · exact vu_append
      (vu_append (a := [34]) (vu_ascii (by decide)) (escapeBody_valid hs))
      (vu_ascii (by decide))

/-! #### State sanity and output shape of the pretty formatter operations

During an actual encode a pending bracket is only ever `[` or `{`; the
invariant is threaded through the induction so the flushed bracket byte is
known to be ASCII. -/

/-- The pending bracket, if any, is `[` or `{`. -/
def stOk (st : PState) : Bool :=
  match st.nextBracket with
  | none => true
  | some b => b = 91 || b = 123

theorem pSpace_out (st : PState) :
    (∀ b ∈ (pSpace st).2, b < 128) ∧ (pSpace st).1.nextBracket = st.nextBracket := by
  unfold pSpace
  split <;> simp

theorem stOk_of_nextBracket {st st' : PState} (h : stOk st = true)
    (he : st'.nextBracket = st.nextBracket) : stOk st' = true := by
  unfold stOk at h ⊢
  rw [he]
  exact h

theorem pWriteScalar_valid {st : PState} {bytes : List Nat}
    (hb : validUtf8 bytes) (h : stOk st = true) :
    validUtf8 (pWriteScalar st bytes).2 ∧ stOk (pWriteScalar st bytes).1 = true := by
  unfold pWriteScalar
  exact ⟨vu_append (vu_ascii (pSpace_out st).1) hb,
    stOk_of_nextBracket h (pSpace_out st).2⟩

theorem tryWriteBracket_out {st : PState} (h : stOk st = true) :
    (∀ b ∈ (tryWriteBracket st).2, b < 128) ∧
      stOk (tryWriteBracket st).1 = true := by
  obtain ⟨ci, hv, io, nb⟩ := st
  cases nb with
  | none => exact ⟨by simp [tryWriteBracket], by simp [tryWriteBracket, stOk]⟩
  | some br =>
    have hbr : br = 91 ∨ br = 123 := by simpa [stOk] using h
    cases io with
    | false =>
      refine ⟨?_, by simp [tryWriteBracket, stOk]⟩
      intro b hb
      simp [tryWriteBracket] at hb
      omega
    | true =>
      refine ⟨?_, by simp [tryWriteBracket, stOk]⟩
      intro b hb
      simp [tryWriteBracket] at hb
      rcases hb with hb | hb | hb
      · omega
      · exact indentBytes_ascii _ b hb
      · omega

theorem pEndArray_out {st : PState} {st' : PState} {o : List Nat}
    (h : pEndArray st = .ok (st', o)) :
    (∀ b ∈ o, b < 128) ∧ stOk st' = true := by
  unfold pEndArray at h
  cases hnb : st.nextBracket with
  | some br =>
    rw [hnb] at h
    injection h with h
    injection h with h1 h2
    subst h1 h2
    refine ⟨?_, by simp [stOk]⟩
    intro b hb
    have : b = 32 ∨ b = 91 ∨ b = 93 := by
      rw [List.mem_append] at hb
      rcases hb with hb | hb
      · split at hb <;> simp at hb <;> tauto
      · simp at hb
        tauto
    omega
  | none =>
    rw [hnb] at h
    simp only [Bind.bind, Except.bind] at h
    cases hd : usizeDec st.currentIndent with
    | error e => rw [hd] at h; cases h
    | ok n =>
      rw [hd] at h
      injection h with h
      injection h with h1 h2
      subst h1 h2
      refine ⟨?_, by simp [stOk, hnb]⟩
      intro b hb
      rw [List.mem_append] at hb
      rcases hb with hb | hb
      · split at hb
        · simp only [List.mem_append, List.mem_singleton] at hb
          rcases hb with hb | hb
          · omega
          · exact indentBytes_ascii _ b hb
        · simp at hb
      · simp at hb
        omega

theorem pEndObject_out {st : PState} {st' : PState} {o : List Nat}
    (h : pEndObject st = .ok (st', o)) :
    (∀ b ∈ o, b < 128) ∧ stOk st' = true := by
  unfold pEndObject at h
  cases hnb : st.nextBracket with
  | some br =>
    rw [hnb] at h
    injection h with h
    injection h with h1 h2
    subst h1 h2
    refine ⟨?_, by simp [stOk]⟩
    intro b hb
    have : b = 32 ∨ b = 123 ∨ b = 125 := by
      rw [List.mem_append] at hb
      rcases hb with hb | hb
      · split at hb <;> simp at hb <;> tauto
      · simp at hb
        tauto
    omega
  | none =>
    rw [hnb] at h
    simp only [Bind.bind, Except.bind] at h
    cases hd : usizeDec st.currentIndent with
    | error e => rw [hd] at h; cases h
    | ok n =>
      rw [hd] at h
      injection h with h
      injection h with h1 h2
      subst h1 h2
      refine ⟨?_, by simp [stOk, hnb]⟩
      intro b hb
      rw [List.mem_append] at hb
      rcases hb with hb | hb
      · split at hb
        · simp only [List.mem_append, List.mem_singleton] at hb
          rcases hb with hb | hb
          · omega
          · exact indentBytes_ascii _ b hb
        · simp at hb
      · simp at hb
        omega

theorem pBeginArrayValue_out {st : PState} (h : stOk st = true) :
    (∀ b ∈ (pBeginArrayValue st).2, b < 128) ∧
      stOk (pBeginArrayValue st).1 = true := by
  unfold pBeginArrayValue
  refine ⟨?_, ?_⟩
  · intro b hb
    simp only [List.mem_append, List.mem_singleton] at hb
    rcases hb with (hb | hb) | hb
    · exact (tryWriteBracket_out h).1 b hb
    · omega
    · exact indentBytes_ascii _ b hb
  · exact stOk_of_nextBracket (tryWriteBracket_out h).2 (by simp)

theorem pBeginObjectKey_out {st : PState} (h : stOk st = true) :
    (∀ b ∈ (pBeginObjectKey st).2, b < 128) ∧
      stOk (pBeginObjectKey st).1 = true := by
  unfold pBeginObjectKey
  refine ⟨?_, (tryWriteBracket_out h).2⟩
  intro b hb
  simp only [List.mem_append, List.mem_singleton] at hb
  rcases hb with (hb | hb) | hb
  · exact (tryWriteBracket_out h).1 b hb
  · omega
  · exact indentBytes_ascii _ b hb

theorem prettyWriteString_stOk {st : PState} {s : List Nat} {st' : PState}
    {out : List Nat} (hst : stOk st = true)
    (h : prettyWriteString st s = .ok (st', out)) : stOk st' = true := by
  unfold prettyWriteString at h
  cases hk : classifyString s with
  | unquoted =>
    rw [hk] at h
    injection h with h
    injection h with h1 h2
    subst h1
    exact stOk_of_nextBracket hst (pSpace_out st).2
  | doubleQuoted =>
    rw [hk] at h
    injection h with h
    injection h with h1 h2
    subst h1
    exact stOk_of_nextBracket hst (pSpace_out st).2
  | tripleQuoted =>
    rw [hk] at h
    injection h with h
    injection h with h1 h2
    subst h1
    exact stOk_of_nextBracket hst (pSpace_out st).2
  | multilineTripleQuoted =>
    rw [hk] at h
    simp only [Bind.bind, Except.bind] at h
    cases hd : usizeDec (if st.inObject = true then st.currentIndent + 1
        else st.currentIndent) with
    | error e => rw [hd] at h; cases h
    | ok n =>
      rw [hd] at h
      injection h with h
      injection h with h1 h2
      subst h1
      exact stOk_of_nextBracket hst (by simp)

/-! #### Value-level UTF-8 validity, compact mode -/

theorem except_bind_ok {α β : Type} {x : Except SerErr α}
    {f : α → Except SerErr β} {b : β} (h : x >>= f = .ok b) :
    ∃ a, x = .ok a ∧ f a = .ok b := by
  cases x with
  | error e => simp [Bind.bind, Except.bind] at h
  | ok a => exact ⟨a, rfl, by simpa [Bind.bind, Except.bind] using h⟩

theorem vu_cons_ascii {b : Nat} (hb : b < 128) {l : List Nat}
    (hl : validUtf8 l) : validUtf8 (b :: l) :=
  vu_append (a := [b]) (vu_ascii (by intro x hx; simp at hx; omega)) hl

theorem encCBytes_ascii : ∀ bs first, ∀ b ∈ encCBytes bs first, b < 128 := by
  intro bs
  induction bs with
  | nil =>
    intro first b hb
    simp [encCBytes] at hb
  | cons x tl ih =>
    intro first b hb
    rw [encCBytes] at hb
    rw [List.mem_append] at hb
    rcases hb with hb | hb
    · rw [List.mem_append] at hb
      rcases hb with hb | hb
      · split at hb
        · simp at hb
        · simp at hb
          omega
      · exact natToBytes_ascii _ b hb
    · exact ih false b hb

theorem boolB_ascii (b : Bool) : ∀ x ∈ boolB b, x < 128 := by
  cases b <;> decide

mutual
/-- Compact-mode encode emits valid UTF-8 on every success. -/
theorem encC_valid : ∀ v, wfV v = true → ∀ out, encC v = .ok out → validUtf8 out
  | .unit, _, out, h => by
    rw [encC] at h
    injection h with h
    subst h
    exact vu_ascii (by decide)
  | .unitStruct _, _, out, h => by
    rw [encC] at h
    injection h with h
    subst h
    exact vu_ascii (by decide)
  | .noneV, _, out, h => by
    rw [encC] at h
    injection h with h
    subst h
    exact vu_ascii (by decide)
  | .someV v, hwf, out, h => by
    rw [encC] at h
    exact encC_valid v (by simpa [wfV] using hwf) out h
  | .vbool b, _, out, h => by
    rw [encC] at h
    injection h with h
    subst h
    exact vu_ascii (boolB_ascii b)
  | .vint w n, _, out, h => by
    rw [encC] at h
    injection h with h
    subst h
    exact vu_ascii (intToBytes_ascii n)
  | .vfloat w cat txt, hwf, out, h => by
    have htxt : ∀ b ∈ txt, b < 128 := by
      simpa [wfV, List.all_eq_true] using hwf
    cases cat <;>
      · injection h with h
        subst h
        first
          | exact vu_ascii (by decide)
          | exact vu_ascii htxt
  | .vchar c, hwf, out, h => by
    rw [encC] at h
    injection h with h
    subst h
    exact compactWriteString_valid (by simpa [wfV] using hwf)
  | .vstr s, hwf, out, h => by
    rw [encC] at h
    injection h with h
    subst h
    exact compactWriteString_valid (by simpa [wfV] using hwf)
  | .vbytes bs, _, out, h => by
    cases bs with
    | nil =>
      rw [encC] at h
      injection h with h
      subst h
      exact vu_ascii (by decide)
    | cons x tl =>
      injection h with h
      subst h
      refine vu_append (vu_cons_ascii (by omega) ?_) (vu_ascii (by decide))
      exact vu_ascii (encCBytes_ascii (x :: tl) true)
  | .arr l, hwf, out, h => by
    cases l with
    | nil =>
      rw [encC] at h
      injection h with h
      subst h
      exact vu_ascii (by decide)
    | cons v tl =>
      rw [encC] at h
      · obtain ⟨body, hb, h2⟩ := except_bind_ok h
        injection h2 with h2
        subst h2
        refine vu_append (vu_cons_ascii (by omega) ?_) (vu_ascii (by decide))
        exact encCList_valid (.cons v tl) (by simpa [wfV] using hwf) true body hb
      · intro hx
        simp at hx
  | .obj e, hwf, out, h => by
    cases e with
    | nil =>
      rw [encC] at h
      injection h with h
      subst h
      exact vu_ascii (by decide)
    | cons k v tl =>
      rw [encC] at h
      · obtain ⟨body, hb, h2⟩ := except_bind_ok h
        injection h2 with h2
        subst h2
        refine vu_append (vu_cons_ascii (by omega) ?_) (vu_ascii (by decide))
        exact encCEntries_valid (.cons k v tl) (by simpa [wfV] using hwf) true body hb
      · intro hx
        simp at hx
  | .unitVariant name, hwf, out, h => by
    rw [encC] at h
    injection h with h
    subst h
    exact compactWriteString_valid (by simpa [wfV] using hwf)
  | .newtypeStruct _ v, hwf, out, h => by
    rw [encC] at h
    exact encC_valid v (by simpa [wfV] using hwf) out h
  | .newtypeVariant _ var v, hwf, out, h => by
    rw [wfV, Bool.and_eq_true] at hwf
    rw [encC] at h
    obtain ⟨inner, hi, h2⟩ := except_bind_ok h
    injection h2 with h2
    subst h2
    refine vu_append (vu_append
      (vu_cons_ascii (by omega) (compactWriteString_valid hwf.1))
      (vu_cons_ascii (by omega) (encC_valid v hwf.2 inner hi)))
      (vu_ascii (by decide))
  | .tupleVariant var l, hwf, out, h => by
    rw [wfV, Bool.and_eq_true] at hwf
    cases l with
    | nil =>
      rw [encC] at h
      simp only [Bind.bind, Except.bind, pure, Except.pure] at h
      injection h with h
      subst h
      refine vu_append (vu_append
        (vu_cons_ascii (by omega) (compactWriteString_valid hwf.1))
        (vu_cons_ascii (by omega) (vu_ascii (by decide))))
        (vu_ascii (by decide))
    | cons v tl =>
      rw [encC] at h
      obtain ⟨body, hb, h2⟩ := except_bind_ok h
      simp only [pure, Except.pure, Bind.bind, Except.bind] at h2
      injection h2 with h2
      subst h2
      refine vu_append (vu_append
        (vu_cons_ascii (by omega) (compactWriteString_valid hwf.1))
        (vu_cons_ascii (by omega) ?_))
        (vu_ascii (by decide))
      refine vu_append (vu_cons_ascii (by omega) ?_) (vu_ascii (by decide))
      exact encCList_valid (.cons v tl) hwf.2 true body hb
      intro hx
      simp at hx
  | .structVariant var e, hwf, out, h => by
    rw [wfV, Bool.and_eq_true] at hwf
    cases e with
    | nil =>
      rw [encC] at h
      simp only [Bind.bind, Except.bind, pure, Except.pure] at h
      injection h with h
      subst h
      refine vu_append (vu_append
        (vu_cons_ascii (by omega) (compactWriteString_valid hwf.1))
        (vu_cons_ascii (by omega) (vu_ascii (by decide))))
        (vu_ascii (by decide))
    | cons k v tl =>
      rw [encC] at h
      obtain ⟨body, hb, h2⟩ := except_bind_ok h
      simp only [pure, Except.pure, Bind.bind, Except.bind] at h2
      injection h2 with h2
      subst h2
      refine vu_append (vu_append
        (vu_cons_ascii (by omega) (compactWriteString_valid hwf.1))
        (vu_cons_ascii (by omega) ?_))
        (vu_ascii (by decide))
      refine vu_append (vu_cons_ascii (by omega) ?_) (vu_ascii (by decide))
      exact encCEntries_valid (.cons k v tl) hwf.2 true body hb
      intro hx
      simp at hx
/-- Compact sequence elements emit valid UTF-8. -/
theorem encCList_valid : ∀ l, wfL l = true → ∀ first out,
    encCList l first = .ok out → validUtf8 out
  | .nil, _, first, out, h => by
    injection h with h
    subst h
    exact vu_nil
  | .cons v tl, hwf, first, out, h => by
    rw [wfL, Bool.and_eq_true] at hwf
    rw [encCList] at h
    obtain ⟨x, hx, h2⟩ := except_bind_ok h
    obtain ⟨r, hr, h3⟩ := except_bind_ok h2
    injection h3 with h3
    subst h3
    refine vu_append (vu_append ?_ (encC_valid v hwf.1 x hx))
      (encCList_valid tl hwf.2 false r hr)
    split
    · exact vu_nil
    · exact vu_ascii (by decide)
/-- Compact map entries emit valid UTF-8. -/
theorem encCEntries_valid : ∀ e, wfE e = true → ∀ first out,
    encCEntries e first = .ok out → validUtf8 out
  | .nil, _, first, out, h => by
    injection h with h
    subst h
    exact vu_nil
  | .cons k v tl, hwf, first, out, h => by
    rw [wfE, Bool.and_eq_true, Bool.and_eq_true] at hwf
    rw [encCEntries] at h
    obtain ⟨kb, hk, h2⟩ := except_bind_ok h
    obtain ⟨vb, hv, h3⟩ := except_bind_ok h2
    obtain ⟨r, hr, h4⟩ := except_bind_ok h3
    injection h4 with h4
    subst h4
    refine vu_append (vu_append (vu_append ?_ (keySerC_valid k hwf.1.1 kb hk))
      (vu_cons_ascii (by omega) (encC_valid v hwf.1.2 vb hv)))
      (encCEntries_valid tl hwf.2 false r hr)
    split
    · exact vu_nil
    · exact vu_ascii (by decide)
/-- The compact key serializer emits valid UTF-8. -/
theorem keySerC_valid : ∀ k, wfV k = true → ∀ out,
    keySerC k = .ok out → validUtf8 out
  | .vstr s, hwf, out, h => by
    rw [keySerC] at h
    injection h with h
    subst h
    exact compactWriteString_valid (by simpa [wfV] using hwf)
  | .unitVariant name, hwf, out, h => by
    rw [keySerC] at h
    injection h with h
    subst h
    exact compactWriteString_valid (by simpa [wfV] using hwf)
  | .newtypeStruct _ v, hwf, out, h => by
    rw [keySerC] at h
    exact keySerC_valid v (by simpa [wfV] using hwf) out h
  | .vint w n, _, out, h => by
    rw [keySerC] at h
    injection h with h
    subst h
    exact vu_append (vu_cons_ascii (by omega) (vu_ascii (intToBytes_ascii n)))
      (vu_ascii (by decide))
  | .unit, _, out, h => by simp [keySerC] at h
  | .unitStruct _, _, out, h => by simp [keySerC] at h
  | .noneV, _, out, h => by simp [keySerC] at h
  | .someV _, _, out, h => by simp [keySerC] at h
  | .vbool _, _, out, h => by simp [keySerC] at h
  | .vfloat _ _ _, _, out, h => by simp [keySerC] at h
  | .vchar _, _, out, h => by simp [keySerC] at h
  | .vbytes _, _, out, h => by simp [keySerC] at h
  | .arr _, _, out, h => by simp [keySerC] at h
  | .obj _, _, out, h => by simp [keySerC] at h
  | .newtypeVariant _ _ _, _, out, h => by simp [keySerC] at h
  | .tupleVariant _ _, _, out, h => by simp [keySerC] at h
  | .structVariant _ _, _, out, h => by simp [keySerC] at h
end

/-! #### Value-level UTF-8 validity, pretty mode -/

theorem pair_ok_valid {p : PState × List Nat} {st' : PState} {out : List Nat}
    (h : (Except.ok p : Except SerErr (PState × List Nat)) = .ok (st', out))
    (hv : validUtf8 p.2) (hs : stOk p.1 = true) :
    validUtf8 out ∧ stOk st' = true := by
  injection h with h
  constructor
  · rw [h] at hv
    exact hv
  · rw [h] at hs
    exact hs

theorem serializeSeqP_out {st : PState} (hst : stOk st = true)
    {hint : Option Nat} {r : PState × List Nat × Bool}
    (h : serializeSeqP st hint = .ok r) :
    (∀ b ∈ r.2.1, b < 128) ∧ stOk r.1 = true := by
  unfold serializeSeqP at h
  split at h
  · obtain ⟨x, hx, h2⟩ := except_bind_ok h
    injection h2 with h2
    subst h2
    exact ⟨(pEndArray_out hx).1, (pEndArray_out hx).2⟩
  · injection h with h
    subst h
    exact ⟨by simp, by simp [pBeginArray, stOk]⟩

theorem serializeMapP_out {st : PState} (hst : stOk st = true)
    {hint : Option Nat} {r : PState × List Nat × Bool}
    (h : serializeMapP st hint = .ok r) :
    (∀ b ∈ r.2.1, b < 128) ∧ stOk r.1 = true := by
  unfold serializeMapP at h
  split at h
  · obtain ⟨x, hx, h2⟩ := except_bind_ok h
    injection h2 with h2
    subst h2
    exact ⟨(pEndObject_out hx).1, (pEndObject_out hx).2⟩
  · injection h with h
    subst h
    exact ⟨by simp, by simp [pBeginObject, stOk]⟩

theorem pSeqClose_out {st : PState} (hst : stOk st = true) {e : Bool}
    {st' : PState} {o : List Nat} (h : pSeqClose st e = .ok (st', o)) :
    (∀ b ∈ o, b < 128) ∧ stOk st' = true := by
  unfold pSeqClose at h
  split at h
  · injection h with h
    injection h with h1 h2
    subst h1 h2
    exact ⟨by simp, hst⟩
  · exact pEndArray_out h

theorem pMapClose_out {st : PState} (hst : stOk st = true) {e : Bool}
    {st' : PState} {o : List Nat} (h : pMapClose st e = .ok (st', o)) :
    (∀ b ∈ o, b < 128) ∧ stOk st' = true := by
  unfold pMapClose at h
  split at h
  · injection h with h
    injection h with h1 h2
    subst h1 h2
    exact ⟨by simp, hst⟩
  · exact pEndObject_out h

theorem pBytesElems_out : ∀ bs : List Nat, ∀ st : PState, stOk st = true →
    (∀ b ∈ (pBytesElems st bs).2, b < 128) ∧
      stOk (pBytesElems st bs).1 = true := by
  intro bs
  induction bs with
  | nil =>
    intro st hst
    exact ⟨by simp [pBytesElems], by simpa [pBytesElems] using hst⟩
  | cons x tl ih =>
    intro st hst
    rw [pBytesElems]
    have h1 := pBeginArrayValue_out hst
    have h2 := @pWriteScalar_valid (pBeginArrayValue st).1
      (natToBytes x) (vu_ascii (natToBytes_ascii x)) h1.2
    have h3 : stOk (pEndArrayValue (pWriteScalar (pBeginArrayValue st).1
        (natToBytes x)).1) = true :=
      stOk_of_nextBracket h2.2 (by simp [pEndArrayValue])
    have h4 := ih _ h3
    refine ⟨?_, h4.2⟩
    intro b hb
    simp only [List.mem_append] at hb
    rcases hb with (hb | hb) | hb
    · exact h1.1 b hb
    · -- bytes of the scalar write: space plus digits
      rcases (List.mem_append).mp ((by simpa [pWriteScalar] using hb :
          b ∈ (pSpace (pBeginArrayValue st).1).2 ++ natToBytes x)) with hb' | hb'
      · exact pSpace_ascii _ b hb'
      · exact natToBytes_ascii x b hb'
    · exact h4.1 b hb

theorem pBeginString_out {st : PState} (hst : stOk st = true) :
    (∀ b ∈ (pBeginString st).2, b < 128) ∧ stOk (pBeginString st).1 = true := by
  unfold pBeginString
  refine ⟨?_, stOk_of_nextBracket hst (pSpace_out st).2⟩
  intro b hb
  rw [List.mem_append] at hb
  rcases hb with hb | hb
  · exact pSpace_ascii st b hb
  · simp at hb
    omega

mutual
/-- Pretty-mode encode emits valid UTF-8 on every success, and keeps the
pending-bracket sanity invariant. -/
theorem encP_valid : ∀ v st, wfV v = true → stOk st = true → ∀ st' out,
    encP st v = .ok (st', out) → validUtf8 out ∧ stOk st' = true
  | .unit, st, _, hst, st', out, h => by
    rw [encP] at h
    have hq := @pWriteScalar_valid st [110, 117, 108, 108]
      (vu_ascii (by decide)) hst
    exact pair_ok_valid h hq.1 hq.2
  | .unitStruct _, st, _, hst, st', out, h => by
    rw [encP] at h
    have hq := @pWriteScalar_valid st [110, 117, 108, 108]
      (vu_ascii (by decide)) hst
    exact pair_ok_valid h hq.1 hq.2
  | .noneV, st, _, hst, st', out, h => by
    rw [encP] at h
    have hq := @pWriteScalar_valid st [110, 117, 108, 108]
      (vu_ascii (by decide)) hst
    exact pair_ok_valid h hq.1 hq.2
  | .someV v, st, hwf, hst, st', out, h => by
    rw [encP] at h
    exact encP_valid v st (by simpa [wfV] using hwf) hst st' out h
  | .vbool b, st, _, hst, st', out, h => by
    rw [encP] at h
    have hq := @pWriteScalar_valid st (boolB b)
      (vu_ascii (boolB_ascii b)) hst
    exact pair_ok_valid h hq.1 hq.2
  | .vint w n, st, _, hst, st', out, h => by
    rw [encP] at h
    have hq := @pWriteScalar_valid st (intToBytes n)
      (vu_ascii (intToBytes_ascii n)) hst
    exact pair_ok_valid h hq.1 hq.2
  | .vfloat w cat txt, st, hwf, hst, st', out, h => by
    have htxt : ∀ b ∈ txt, b < 128 := by
      simpa [wfV, List.all_eq_true] using hwf
    cases cat
    all_goals rw [encP] at h
    all_goals first
      | exact pair_ok_valid h
          (@pWriteScalar_valid st [110, 117, 108, 108]
            (vu_ascii (by decide)) hst).1
          (@pWriteScalar_valid st [110, 117, 108, 108]
            (vu_ascii (by decide)) hst).2
      | exact pair_ok_valid h
          (@pWriteScalar_valid st txt
            (vu_ascii htxt) hst).1
          (@pWriteScalar_valid st txt
            (vu_ascii htxt) hst).2
      | (intro hx; simp at hx)
  | .vchar c, st, hwf, hst, st', out, h => by
    rw [encP] at h
    exact ⟨prettyWriteString_valid (by simpa [wfV] using hwf) h,
      prettyWriteString_stOk hst h⟩
  | .vstr s, st, hwf, hst, st', out, h => by
    rw [encP] at h
    exact ⟨prettyWriteString_valid (by simpa [wfV] using hwf) h,
      prettyWriteString_stOk hst h⟩
  | .unitVariant name, st, hwf, hst, st', out, h => by
    rw [encP] at h
    exact ⟨prettyWriteString_valid (by simpa [wfV] using hwf) h,
      prettyWriteString_stOk hst h⟩
  | .newtypeStruct _ v, st, hwf, hst, st', out, h => by
    rw [encP] at h
    exact encP_valid v st (by simpa [wfV] using hwf) hst st' out h
  | .vbytes bs, st, _, hst, st', out, h => by
    rw [encP] at h
    obtain ⟨⟨st1, o1, e1⟩, ho, h⟩ := except_bind_ok h
    obtain ⟨⟨st2, o2⟩, hc, h⟩ := except_bind_ok h
    injection h with h
    injection h with hA hB
    subst hA
    subst hB
    have h1 := serializeSeqP_out hst ho
    have h2 := pBytesElems_out bs st1 h1.2
    have h3 := pSeqClose_out h2.2 hc
    exact ⟨vu_append (vu_append (vu_ascii h1.1) (vu_ascii h2.1))
      (vu_ascii h3.1), h3.2⟩
  | .arr l, st, hwf, hst, st', out, h => by
    rw [encP] at h
    obtain ⟨⟨st1, o1, e1⟩, ho, h⟩ := except_bind_ok h
    obtain ⟨⟨stp, op⟩, hp, h⟩ := except_bind_ok h
    obtain ⟨⟨st2, o2⟩, hc, h⟩ := except_bind_ok h
    injection h with h
    injection h with hA hB
    subst hA
    subst hB
    have h1 := serializeSeqP_out hst ho
    have h2 := encPList_valid l st1 (by simpa [wfV] using hwf) h1.2 stp op hp
    have h3 := pSeqClose_out h2.2 hc
    exact ⟨vu_append (vu_append (vu_ascii h1.1) h2.1) (vu_ascii h3.1), h3.2⟩
  | .obj e, st, hwf, hst, st', out, h => by
    rw [encP] at h
    obtain ⟨⟨st1, o1, e1⟩, ho, h⟩ := except_bind_ok h
    obtain ⟨⟨stp, op⟩, hp, h⟩ := except_bind_ok h
    obtain ⟨⟨st2, o2⟩, hc, h⟩ := except_bind_ok h
    injection h with h
    injection h with hA hB
    subst hA
    subst hB
    have h1 := serializeMapP_out hst ho
    have h2 := encPEntries_valid e st1 (by simpa [wfV] using hwf) h1.2 stp op hp
    have h3 := pMapClose_out h2.2 hc
    exact ⟨vu_append (vu_append (vu_ascii h1.1) h2.1) (vu_ascii h3.1), h3.2⟩
  | .newtypeVariant _ var v, st, hwf, hst, st', out, h => by
    rw [wfV, Bool.and_eq_true] at hwf
    rw [encP] at h
    obtain ⟨⟨ss, so⟩, hsv, h⟩ := except_bind_ok h
    obtain ⟨⟨iv, io⟩, hiv, h⟩ := except_bind_ok h
    obtain ⟨⟨es, eo⟩, hev, h⟩ := except_bind_ok h
    injection h with h
    injection h with hA hB
    subst hA
    subst hB
    have hk := @pBeginObjectKey_out (pBeginObject st)
      (by simp [pBeginObject, stOk])
    have hs2 := prettyWriteString_stOk hk.2 hsv
    have hbv : stOk (pBeginObjectValue ss).1 = true :=
      stOk_of_nextBracket hs2 (by simp [pBeginObjectValue])
    have hi := encP_valid v _ hwf.2 hbv iv io hiv
    have hev2 := pEndObject_out hev
    refine ⟨?_, hev2.2⟩
    exact vu_append (vu_append (vu_append (vu_append
      (vu_ascii hk.1)
      (prettyWriteString_valid hwf.1 hsv))
      (vu_ascii (by simp [pBeginObjectValue])))
      hi.1)
      (vu_ascii hev2.1)
  | .tupleVariant var l, st, hwf, hst, st', out, h => by
    rw [wfV, Bool.and_eq_true] at hwf
    rw [encP] at h
    obtain ⟨⟨ss, so⟩, hsv, h⟩ := except_bind_ok h
    obtain ⟨⟨st1, o1, e1⟩, ho, h⟩ := except_bind_ok h
    obtain ⟨⟨stp, op⟩, hp, h⟩ := except_bind_ok h
    obtain ⟨⟨st2, o2⟩, hc, h⟩ := except_bind_ok h
    obtain ⟨⟨es, eo⟩, hev, h⟩ := except_bind_ok h
    injection h with h
    injection h with hA hB
    subst hA
    subst hB
    have hk := @pBeginObjectKey_out (pBeginObject st)
      (by simp [pBeginObject, stOk])
    have hs2 := prettyWriteString_stOk hk.2 hsv
    have hbv : stOk (pBeginObjectValue ss).1 = true :=
      stOk_of_nextBracket hs2 (by simp [pBeginObjectValue])
    have h1 := serializeSeqP_out hbv ho
    have h2 := encPList_valid l st1 hwf.2 h1.2 stp op hp
    have h3 := pSeqClose_out h2.2 hc
    have hev2 := pEndObject_out hev
    refine ⟨?_, hev2.2⟩
    exact vu_append (vu_append (vu_append (vu_append (vu_append (vu_append
      (vu_ascii hk.1)
      (prettyWriteString_valid hwf.1 hsv))
      (vu_ascii (by simp [pBeginObjectValue])))
      (vu_ascii h1.1))
      h2.1)
      (vu_ascii h3.1))
      (vu_ascii hev2.1)
  | .structVariant var fs, st, hwf, hst, st', out, h => by
    rw [wfV, Bool.and_eq_true] at hwf
    rw [encP] at h
    obtain ⟨⟨ss, so⟩, hsv, h⟩ := except_bind_ok h
    obtain ⟨⟨st1, o1, e1⟩, ho, h⟩ := except_bind_ok h
    obtain ⟨⟨stp, op⟩, hp, h⟩ := except_bind_ok h
    obtain ⟨⟨st2, o2⟩, hc, h⟩ := except_bind_ok h
    obtain ⟨⟨es, eo⟩, hev, h⟩ := except_bind_ok h
    injection h with h
    injection h with hA hB
    subst hA
    subst hB
    have hk := @pBeginObjectKey_out (pBeginObject st)
      (by simp [pBeginObject, stOk])
    have hs2 := prettyWriteString_stOk hk.2 hsv
    have hbv : stOk (pBeginObjectValue ss).1 = true :=
      stOk_of_nextBracket hs2 (by simp [pBeginObjectValue])
    have h1 := serializeMapP_out hbv ho
    have h2 := encPEntries_valid fs st1 hwf.2 h1.2 stp op hp
    have h3 := pMapClose_out h2.2 hc
    have hev2 := pEndObject_out hev
    refine ⟨?_, hev2.2⟩
    exact vu_append (vu_append (vu_append (vu_append (vu_append (vu_append
      (vu_ascii hk.1)
      (prettyWriteString_valid hwf.1 hsv))
      (vu_ascii (by simp [pBeginObjectValue])))
      (vu_ascii h1.1))
      h2.1)
      (vu_ascii h3.1))
      (vu_ascii hev2.1)
/-- Pretty sequence elements emit valid UTF-8 and keep the invariant. -/
theorem encPList_valid : ∀ l st, wfL l = true → stOk st = true → ∀ st' out,
    encPList st l = .ok (st', out) → validUtf8 out ∧ stOk st' = true
  | .nil, st, _, hst, st', out, h => by
    rw [encPList] at h
    injection h with h
    injection h with hA hB
    subst hA
    subst hB
    exact ⟨vu_nil, hst⟩
  | .cons v tl, st, hwf, hst, st', out, h => by
    rw [wfL, Bool.and_eq_true] at hwf
    rw [encPList] at h
    obtain ⟨⟨vs, vo⟩, hv, h⟩ := except_bind_ok h
    obtain ⟨⟨ts, to_⟩, ht, h⟩ := except_bind_ok h
    injection h with h
    injection h with hA hB
    subst hA
    subst hB
    have h1 := pBeginArrayValue_out hst
    have h2 := encP_valid v _ hwf.1 h1.2 vs vo hv
    have h3 : stOk (pEndArrayValue vs) = true :=
      stOk_of_nextBracket h2.2 (by simp [pEndArrayValue])
    have h4 := encPList_valid tl _ hwf.2 h3 ts to_ ht
    exact ⟨vu_append (vu_append (vu_ascii h1.1) h2.1) h4.1, h4.2⟩
/-- Pretty map entries emit valid UTF-8 and keep the invariant. -/
theorem encPEntries_valid : ∀ e st, wfE e = true → stOk st = true → ∀ st' out,
    encPEntries st e = .ok (st', out) → validUtf8 out ∧ stOk st' = true
  | .nil, st, _, hst, st', out, h => by
    rw [encPEntries] at h
    injection h with h
    injection h with hA hB
    subst hA
    subst hB
    exact ⟨vu_nil, hst⟩
  | .cons k v tl, st, hwf, hst, st', out, h => by
    rw [wfE, Bool.and_eq_true, Bool.and_eq_true] at hwf
    rw [encPEntries] at h
    obtain ⟨⟨ks, ko⟩, hk, h⟩ := except_bind_ok h
    obtain ⟨⟨vs, vo⟩, hv, h⟩ := except_bind_ok h
    obtain ⟨⟨ts, to_⟩, ht, h⟩ := except_bind_ok h
    injection h with h
    injection h with hA hB
    subst hA
    subst hB
    have h1 := pBeginObjectKey_out hst
    have h2 := keySerP_valid k _ hwf.1.1 h1.2 ks ko hk
    have hbv : stOk (pBeginObjectValue ks).1 = true :=
      stOk_of_nextBracket h2.2 (by simp [pBeginObjectValue])
    have h3 := encP_valid v _ hwf.1.2 hbv vs vo hv
    have h4 : stOk (pEndObjectValue vs) = true :=
      stOk_of_nextBracket h3.2 (by simp [pEndObjectValue])
    have h5 := encPEntries_valid tl _ hwf.2 h4 ts to_ ht
    refine ⟨?_, h5.2⟩
    exact vu_append (vu_append (vu_append (vu_append
      (vu_ascii h1.1) h2.1)
      (vu_ascii (by simp [pBeginObjectValue])))
      h3.1)
      h5.1
/-- The pretty key serializer emits valid UTF-8 and keeps the invariant. -/
theorem keySerP_valid : ∀ k st, wfV k = true → stOk st = true → ∀ st' out,
    keySerP st k = .ok (st', out) → validUtf8 out ∧ stOk st' = true
  | .vstr s, st, hwf, hst, st', out, h => by
    rw [keySerP] at h
    injection h with h
    have hA : st' = (prettyWriteMemberString st s).1 := by rw [h]
    have hB : out = (prettyWriteMemberString st s).2 := by rw [h]
    subst hA
    subst hB
    refine ⟨prettyWriteMemberString_valid st (by simpa [wfV] using hwf), ?_⟩
    exact stOk_of_nextBracket hst (by unfold prettyWriteMemberString; split <;> simp)
  | .unitVariant name, st, hwf, hst, st', out, h => by
    rw [keySerP] at h
    exact ⟨prettyWriteString_valid (by simpa [wfV] using hwf) h,
      prettyWriteString_stOk hst h⟩
  | .newtypeStruct _ v, st, hwf, hst, st', out, h => by
    rw [keySerP] at h
    exact keySerP_valid v st (by simpa [wfV] using hwf) hst st' out h
  | .vint w n, st, _, hst, st', out, h => by
    rw [keySerP] at h
    injection h with h
    injection h with hA hB
    subst hA
    subst hB
    have hb := pBeginString_out hst
    have hw := @pWriteScalar_valid (pBeginString st).1
      (intToBytes n) (vu_ascii (intToBytes_ascii n)) hb.2
    refine ⟨?_, hw.2⟩
    exact vu_append (vu_append (vu_ascii hb.1) hw.1) (vu_ascii (by decide))
  | .unit, st, _, hst, st', out, h => by simp [keySerP] at h
  | .unitStruct _, st, _, hst, st', out, h => by simp [keySerP] at h
  | .noneV, st, _, hst, st', out, h => by simp [keySerP] at h
  | .someV _, st, _, hst, st', out, h => by simp [keySerP] at h
  | .vbool _, st, _, hst, st', out, h => by simp [keySerP] at h
  | .vfloat _ _ _, st, _, hst, st', out, h => by simp [keySerP] at h
  | .vchar _, st, _, hst, st', out, h => by simp [keySerP] at h
  | .vbytes _, st, _, hst, st', out, h => by simp [keySerP] at h
  | .arr _, st, _, hst, st', out, h => by simp [keySerP] at h
  | .obj _, st, _, hst, st', out, h => by simp [keySerP] at h
  | .newtypeVariant _ _ _, st, _, hst, st', out, h => by simp [keySerP] at h
  | .tupleVariant _ _, st, _, hst, st', out, h => by simp [keySerP] at h
  | .structVariant _ _, st, _, hst, st', out, h => by simp [keySerP] at h
end

/-- C8: for every well-formed value whose encoding succeeds, the byte buffer
produced by `to_vec` (compact) and by `to_vec_pretty` is valid UTF-8 — every
successful output is the UTF-8 encoding of some sequence of Unicode scalar
values, so the `from_utf8_unchecked` conversion inside `to_string` and
`to_string_pretty` never yields an invalid `String`. -/
theorem c8_output_valid_utf8 (v : HValue) (hwf : wfV v = true) :
    (∀ out, toVec v = .ok out → validUtf8 out) ∧
    (∀ out, toVecPretty v = .ok out → validUtf8 out) := by
  constructor
  · intro out h
    exact encC_valid v hwf out h
  · intro out h
    unfold toVecPretty at h
    cases he : encP pInit v with
    | error e =>
      rw [he] at h
      simp [Except.map] at h
    | ok p =>
      rw [he] at h
      simp [Except.map] at h
      subst h
      exact (encP_valid v pInit hwf (by decide) p.1 p.2 (by rw [he])).1

/-- Witness: C8 instantiated at the two-element object
`{"k": "hi", "a": [true, 3]}`, whose hypotheses hold by evaluation. -/
theorem c8_output_valid_utf8_witness :
    wfV (HValue.obj (HEntries.cons (HValue.vstr [107]) (HValue.vstr [104, 105])
      (HEntries.cons (HValue.vstr [97])
        (HValue.arr (HList.cons (HValue.vbool true)
          (HList.cons (HValue.vint IntWidth.i32 3) HList.nil)))
        HEntries.nil))) = true ∧
    ((∀ out, toVec (HValue.obj (HEntries.cons (HValue.vstr [107])
        (HValue.vstr [104, 105])
      (HEntries.cons (HValue.vstr [97])
        (HValue.arr (HList.cons (HValue.vbool true)
          (HList.cons (HValue.vint IntWidth.i32 3) HList.nil)))
        HEntries.nil))) = .ok out → validUtf8 out) ∧
     (∀ out, toVecPretty (HValue.obj (HEntries.cons (HValue.vstr [107])
        (HValue.vstr [104, 105])
      (HEntries.cons (HValue.vstr [97])
        (HValue.arr (HList.cons (HValue.vbool true)
          (HList.cons (HValue.vint IntWidth.i32 3) HList.nil)))
        HEntries.nil))) = .ok out → validUtf8 out)) :=
  ⟨by decide, c8_output_valid_utf8 _ (by decide)⟩

end Hjson
